import Mathlib

/-!
# unhtml: the HTML-to-text converter `HtmlToText`

A shallow embedding of `html2text.go`.  The tokenizer (`golang.org/x/net/html`)
is an external library: the converter only sees the sequence of tokens that
`z.Next()` reports, together with what `z.Text()`, `z.TagName()`, `z.TagAttr()`
and `z.Err()` return for the current token.  A token stream is therefore a
list of `Token` values; when the list is exhausted the tokenizer reports
`ErrorToken` with `io.EOF`, as it does at the end of its input.

The writer `out` is append-only (`fmt.Fprint*` results are discarded), so every
loop iteration is modelled as returning the bytes it writes, in order; the
contents of the writer are the concatenation of these chunks.

Go strings are modelled by `String` (sequences of Unicode characters), the
`int` counter `newLines` by `Int`: it only ever holds small values, so no
overflow can occur.
-/

namespace unhtml

/-- Values of Go's `error` that the converter can see: `io.EOF` (compared by
identity in the source) and any other error, identified by its message. -/
inductive Error where
  | EOF
  | other (msg : String)
deriving DecidableEq, Repr

/-- The `html.TokenType` values; `Invalid n` stands for any other value of the
underlying integer type. -/
inductive TokenType where
  | ErrorToken
  | TextToken
  | StartTagToken
  | EndTagToken
  | SelfClosingTagToken
  | CommentToken
  | DoctypeToken
  | Invalid (n : Nat)
deriving DecidableEq, Repr

/-- A list of attributes `(key, val)` in the order `z.TagAttr()` returns them. -/
abbrev Attrs := List (String × String)

/-- One token as the converter observes it: the token type returned by
`z.Next()` plus the data the converter reads from the tokenizer for it. -/
inductive Token where
  | Error (err : Error)
  | Text (text : String)
  | StartTag (tag : String) (attr : Attrs)
  | EndTag (tag : String)
  | SelfClosingTag (tag : String) (attr : Attrs)
  | Comment
  | Doctype
  | Invalid (n : Nat)
deriving DecidableEq, Repr

/-- The token type `tt` of a token. -/
def Token.tt : Token → TokenType
  | .Error _ => .ErrorToken
  | .Text _ => .TextToken
  | .StartTag _ _ => .StartTagToken
  | .EndTag _ => .EndTagToken
  | .SelfClosingTag _ _ => .SelfClosingTagToken
  | .Comment => .CommentToken
  | .Doctype => .DoctypeToken
  | .Invalid n => .Invalid n

/-- Go's `unicode.IsSpace`: the characters `strings.TrimSpace` removes. -/
def isSpace (c : Char) : Bool :=
  let n := c.toNat
  n == 0x09 || n == 0x0A || n == 0x0B || n == 0x0C || n == 0x0D || n == 0x20 ||
  n == 0x85 || n == 0xA0 || n == 0x1680 || (0x2000 ≤ n && n ≤ 0x200A) ||
  n == 0x2028 || n == 0x2029 || n == 0x202F || n == 0x205F || n == 0x3000

/-- Go's `strings.TrimSpace`: drop leading and trailing white space. -/
def TrimSpace (s : String) : String :=
  ⟨((s.data.dropWhile isSpace).reverse.dropWhile isSpace).reverse⟩

/-- The local variables of `HtmlToText`. -/
structure State where
  lastTT : TokenType
  newLines : Int
  url : String
  ignore : Bool
  reallyIgnore : Bool
deriving DecidableEq, Repr

/-- The values the locals are declared with. -/
def State.init : State :=
  { lastTT := .CommentToken, newLines := 3, url := "", ignore := false, reallyIgnore := false }

/-- The `for more == true` loop of the `a` cases.  The loop is entered only
when `hasAttr` holds; `z.TagAttr()` then returns the attributes one by one and
reports `more = false` with the last one, so every attribute is visited once,
in order, and each `href` key overwrites `url`. -/
def hrefLoop (url : String) : Attrs → String
  | [] => url
  | (key, val) :: rest => hrefLoop (if key = "href" then val else url) rest

/-- The `for more == true` loop of the `img` cases, visiting every attribute
once in order and returning `(src, alt)`. -/
def imgLoop (src alt : String) : Attrs → String × String
  | [] => (src, alt)
  | (key, val) :: rest =>
    if key = "src" then imgLoop val alt rest
    else if key = "alt" then imgLoop src val rest
    else imgLoop src alt rest

/-- The tag names of the suppressed case, shared by start and end tags. -/
def skipTags : List String :=
  ["script", "title", "link", "meta", "applet", "embed", "frame", "frameset", "iframe",
   "object", "style"]

/-- The body of `case "a"` (start and self-closing tags). -/
def aCase (st : State) (attr : Attrs) : State × String :=
  let hasAttr := !attr.isEmpty
  let url := if hasAttr then hrefLoop st.url attr else st.url
  ({ st with url := url, newLines := 0 }, "")

/-- The body of `case "img"` (start and self-closing tags). -/
def imgCase (st : State) (attr : Attrs) : State × String :=
  let hasAttr := !attr.isEmpty
  let w :=
    if hasAttr then
      let (src, alt) := imgLoop "" "" attr
      let s := if st.newLines > 0 then "" else " "
      if alt ≠ "" then
        (s ++ alt) ++ (if src ≠ "" then " (" ++ src ++ ")" else "")
      else ""
    else ""
  ({ st with newLines := 0 }, w)

/-- The `case html.TextToken` branch. -/
def textCase (st : State) (raw : String) : State × String :=
  if !st.ignore && !st.reallyIgnore then
    let text := TrimSpace raw
    let w1 := if text ≠ "" ∧ st.newLines = 0 then " " else ""
    let w2 := text
    let newLines := if text ≠ "" ∨ st.url ≠ "" then 0 else st.newLines
    if st.url ≠ "" then
      ({ st with newLines := newLines, url := "" }, w1 ++ w2 ++ (" (" ++ st.url ++ ")"))
    else
      ({ st with newLines := newLines }, w1 ++ w2)
  else (st, "")

/-- The `case html.StartTagToken` branch: the switch on the tag name. -/
def startCase (st : State) (tag : String) (attr : Attrs) : State × String :=
  if tag = "head" then ({ st with reallyIgnore := true }, "")
  else if tag ∈ skipTags then ({ st with ignore := true }, "")
  else if tag ∈ ["div", "ul", "tr", "ol", "p", "br", "table"] then
    if st.newLines < 2 then ({ st with newLines := st.newLines + 1 }, "\n") else (st, "")
  else if tag ∈ ["h1", "h2", "h3", "h4", "h5", "h6", "pre", "blockquote"] then
    if st.newLines < 2 then ({ st with newLines := st.newLines + 1 }, "\n\n") else (st, "")
  else if tag = "li" then
    ({ st with newLines := 2 }, (if st.newLines < 2 then "\n" else "") ++ "* ")
  else if tag = "hr" then
    ({ st with newLines := 1 }, (if st.newLines < 2 then "\n" else "") ++ "---\n")
  else if tag ∈ ["td", "th"] then ({ st with newLines := 0 }, "")
  else if tag = "a" then aCase st attr
  else if tag = "img" then imgCase st attr
  else (st, "")

/-- The `case html.EndTagToken` branch. -/
def endCase (st : State) (tag : String) : State × String :=
  if tag = "head" then ({ st with reallyIgnore := false }, "")
  else if tag ∈ skipTags then ({ st with ignore := false }, "")
  else if tag ∈ ["ul", "ol", "pre", "table", "blockquote", "h1", "h2", "h3", "h4", "h5", "h6"] then
    if st.newLines < 2 then ({ st with newLines := st.newLines + 2 }, "\n\n") else (st, "")
  else if tag = "hr" then
    if st.newLines < 2 then ({ st with newLines := st.newLines + 1 }, "\n") else (st, "")
  else (st, "")

/-- The `case html.SelfClosingTagToken` branch. -/
def selfClosingCase (st : State) (tag : String) (attr : Attrs) : State × String :=
  if tag ∈ ["div", "li", "br", "p"] then
    if st.newLines < 2 then ({ st with newLines := st.newLines + 1 }, "\n") else (st, "")
  else if tag = "hr" then
    ({ st with newLines := 2 }, (if st.newLines < 2 then "\n\n" else "") ++ "---\n\n")
  else if tag = "a" then aCase st attr
  else if tag = "img" then imgCase st attr
  else (st, "")

/-- What one iteration of the `for` loop does. -/
inductive Outcome where
  /-- the loop continues; `w` is what the iteration wrote -/
  | next (st : State) (w : String)
  /-- `done = true`: the loop ends normally -/
  | done (st : State)
  /-- `return err` from inside the loop -/
  | ret (err : Error)
deriving DecidableEq, Repr

/-- One iteration of the loop on the token `t`: the switch on `tt`, then
`lastTT = tt`. -/
def body (st : State) (t : Token) : Outcome :=
  match t with
  | .Error err =>
    if err ≠ Error.EOF then .ret err else .done { st with lastTT := .ErrorToken }
  | .Text raw =>
    let r := textCase st raw
    .next { r.1 with lastTT := .TextToken } r.2
  | .StartTag tag attr =>
    let r := startCase st tag attr
    .next { r.1 with lastTT := .StartTagToken } r.2
  | .EndTag tag =>
    let r := endCase st tag
    .next { r.1 with lastTT := .EndTagToken } r.2
  | .SelfClosingTag tag attr =>
    let r := selfClosingCase st tag attr
    .next { r.1 with lastTT := .SelfClosingTagToken } r.2
  | .Doctype => .next { st with lastTT := .DoctypeToken } ""
  | .Comment => .next { st with lastTT := .CommentToken } ""
  | .Invalid n => .ret (.other ("Unhandled token type: Invalid(" ++ toString n ++ ")"))

/-- How the `for` loop ends: with the locals after a normal end, or with the
error returned from inside the loop. -/
inductive Exit where
  | finished (st : State)
  | failed (err : Error)
deriving DecidableEq, Repr

/-- The `for done := false; !done;` loop from state `st` over the tokens the
tokenizer still has to report; the result is what the loop wrote and how it
ended.  An exhausted list is the end of the input: `ErrorToken` with `io.EOF`. -/
def loop (st : State) : List Token → String × Exit
  | [] => ("", .finished { st with lastTT := .ErrorToken })
  | t :: ts =>
    match body st t with
    | .next st1 w => let r := loop st1 ts; (w ++ r.1, r.2)
    | .done st1 => ("", .finished st1)
    | .ret err => ("", .failed err)

/-- `HtmlToText`: the contents written to `out` and the returned error
(`none` is `nil`). -/
def HtmlToText (ts : List Token) : String × Option Error :=
  match loop State.init ts with
  | (w, .failed err) => (w, some err)
  | (w, .finished st) =>
    (w ++ (if st.lastTT = .TextToken ∧ st.url ≠ "" then " (" ++ st.url ++ ")" else ""), none)

/-- `HtmlToTextString`: the buffer contents as a string, and the error of
`HtmlToText`. -/
def HtmlToTextString (ts : List Token) : String × Option Error :=
  let r := HtmlToText ts
  (r.1, r.2)

/-! ## Vocabulary used to state the claims -/

/-- The text the specification gives for an `img` tag with attributes `src`
and `alt`: `alt (src)`, `alt` alone when `src` is empty, nothing when `alt` is
empty. -/
def imgText (src alt : String) : String :=
  if alt = "" then "" else if src = "" then alt else alt ++ " (" ++ src ++ ")"

/-- A token after which the loop goes on: neither an `ErrorToken` nor a token
of an unhandled type. -/
def Token.proper : Token → Bool
  | .Error _ => false
  | .Invalid _ => false
  | _ => true

/-- The names of the break-triggering tags of the specification. -/
def breakNames : List String :=
  ["div", "ul", "tr", "ol", "p", "br", "table", "h1", "h2", "h3", "h4", "h5", "h6", "pre",
   "blockquote"]

/-- A break-triggering tag token: a start or end tag with one of `breakNames`. -/
def isBreakTag : Token → Bool
  | .StartTag tag _ => decide (tag ∈ breakNames)
  | .EndTag tag => decide (tag ∈ breakNames)
  | _ => false

/-- A start tag of `h1`-`h6`, `pre` or `blockquote`. -/
def isHeadingStart : Token → Bool
  | .StartTag tag _ => decide (tag ∈ ["h1", "h2", "h3", "h4", "h5", "h6", "pre", "blockquote"])
  | _ => false

/-- An end tag of `div`, `tr`, `p` or `br`: a break-triggering tag token for
which the end-tag switch has no case, so that it never writes. -/
def isNoopEnd : Token → Bool
  | .EndTag tag => decide (tag ∈ ["div", "tr", "p", "br"])
  | _ => false

/-- The first tag of a run that has a case of its own (end tags of `div`,
`tr`, `p`, `br` skipped) is a start tag of `h1`-`h6`, `pre` or `blockquote`. -/
def headingFirst : List Token → Bool
  | [] => false
  | t :: ts => if isNoopEnd t then headingFirst ts else isHeadingStart t

/-- The tokens of the list items `<li>t</li>` for the texts `t` of a list. -/
def listItems : List String → List Token
  | [] => []
  | t :: rest => .StartTag "li" [] :: .Text t :: .EndTag "li" :: listItems rest

/-- The tag names with an explicit layout effect (the handled tags of the
package documentation). -/
def handledTags : List String :=
  ["a", "blockquote", "br", "div", "h1", "h2", "h3", "h4", "h5", "h6", "hr", "img", "li", "ol",
   "p", "pre", "table", "td", "th", "tr", "ul"]

/-- An end tag with one of the suppressed names. -/
def isSkipEnd : Token → Bool
  | .EndTag tag => decide (tag ∈ skipTags)
  | _ => false

/-- The tags that set the break counter to 0 without having to write
anything: `td`, `th`, `a` and `img`. -/
def isResetTag : Token → Bool
  | .StartTag tag _ => decide (tag ∈ ["td", "th", "a", "img"])
  | .SelfClosingTag tag _ => decide (tag ∈ ["a", "img"])
  | _ => false

/-- The `alt` text the `img` cases read from the attributes begins with a
newline character. -/
def altLeadsNewline (attr : Attrs) : Bool :=
  decide ((imgLoop "" "" attr).2.data.head? = some '\n')

/-- The tokens whose case can write a newline as the first character of what
it writes: the tags that write a line break when the break counter is below 2
(start tags `div`, `ul`, `tr`, `ol`, `p`, `br`, `table`, `h1`-`h6`, `pre`,
`blockquote`, `li`, `hr`; end tags `ul`, `ol`, `pre`, `table`, `blockquote`,
`h1`-`h6`, `hr`; self-closing `div`, `li`, `br`, `p`, `hr`), and an `img` tag
whose `alt` text itself begins with a newline. -/
def isBreaker : Token → Bool
  | .StartTag tag attr =>
    decide (tag ∈ ["div", "ul", "tr", "ol", "p", "br", "table", "h1", "h2", "h3", "h4", "h5",
      "h6", "pre", "blockquote", "li", "hr"]) || (decide (tag = "img") && altLeadsNewline attr)
  | .EndTag tag =>
    decide (tag ∈ ["ul", "ol", "pre", "table", "blockquote", "h1", "h2", "h3", "h4", "h5", "h6",
      "hr"])
  | .SelfClosingTag tag attr =>
    decide (tag ∈ ["div", "li", "br", "p", "hr"]) || (decide (tag = "img") && altLeadsNewline attr)
  | _ => false

/-- The values of the locals when the loop is entered and after each
iteration of the loop over the given tokens (the last one is the state the
loop is left with, when it ends normally). -/
def states (st : State) : List Token → List State
  | [] => [st, { st with lastTT := .ErrorToken }]
  | t :: ts =>
    match body st t with
    | .next st1 _ => st :: states st1 ts
    | .done st1 => [st, st1]
    | .ret _ => [st]

/-! ### The saturating machine of the specification

The specification describes the break counter as saturating at 2 and the
initial state as having the counter at 2.  The definitions below are the same
loop with the counter clamped to at most 2 after every update; an iteration
assigns the counter at most once, after all its reads, so clamping the state
an iteration leaves is clamping every update. -/

/-- Clamp a counter value to at most 2. -/
def sat (n : Int) : Int := if 2 < n then 2 else n

/-- A state with its break counter clamped. -/
def State.sat (st : State) : State := { st with newLines := unhtml.sat st.newLines }

/-- One iteration of the saturating machine: the iteration of the source with
the counter update clamped. -/
def satBody (st : State) (t : Token) : Outcome :=
  match body st t with
  | .next st1 w => .next st1.sat w
  | .done st1 => .done st1.sat
  | .ret err => .ret err

/-- The loop of the saturating machine. -/
def satLoop (st : State) : List Token → String × Exit
  | [] => ("", .finished { st with lastTT := .ErrorToken })
  | t :: ts =>
    match satBody st t with
    | .next st1 w => let r := satLoop st1 ts; (w ++ r.1, r.2)
    | .done st1 => ("", .finished st1)
    | .ret err => ("", .failed err)

/-- The way the source loop ends, seen through the clamp. -/
def Exit.sat : Exit → Exit
  | .finished st => .finished st.sat
  | .failed err => .failed err

/-- The initial state of the saturating machine: the counter starts at 2. -/
def State.satInit : State :=
  { lastTT := .CommentToken, newLines := 2, url := "", ignore := false, reallyIgnore := false }

/-- The conversion by the saturating machine: output and error. -/
def satHtmlToText (ts : List Token) : String × Option Error :=
  match satLoop State.satInit ts with
  | (w, .failed err) => (w, some err)
  | (w, .finished st) =>
    (w ++ (if st.lastTT = .TextToken ∧ st.url ≠ "" then " (" ++ st.url ++ ")" else ""), none)

/-! ## General facts about the embedding -/

/-- What `strings.TrimSpace` returns is the input minus a run of leading white
space and a run of trailing white space, and it neither starts nor ends with
white space. -/
theorem TrimSpace_spec (s : String) :
    ∃ pre post : List Char, s.data = pre ++ (TrimSpace s).data ++ post ∧
      (∀ c ∈ pre, isSpace c = true) ∧ (∀ c ∈ post, isSpace c = true) ∧
      (∀ c, (TrimSpace s).data.head? = some c → isSpace c = false) ∧
      (∀ c, (TrimSpace s).data.getLast? = some c → isSpace c = false) := by
  have hd : (s.data.dropWhile isSpace).reverse
      = ((s.data.dropWhile isSpace).reverse.takeWhile isSpace)
        ++ ((s.data.dropWhile isSpace).reverse.dropWhile isSpace) :=
    (List.takeWhile_append_dropWhile isSpace _).symm
  have hd2 : s.data.dropWhile isSpace
      = ((s.data.dropWhile isSpace).reverse.dropWhile isSpace).reverse
        ++ ((s.data.dropWhile isSpace).reverse.takeWhile isSpace).reverse := by
    have h := congrArg List.reverse hd
    rw [List.reverse_reverse, List.reverse_append] at h
    exact h
  refine ⟨s.data.takeWhile isSpace,
    ((s.data.dropWhile isSpace).reverse.takeWhile isSpace).reverse, ?_, ?_, ?_, ?_, ?_⟩
  · show s.data = _ ++ ((s.data.dropWhile isSpace).reverse.dropWhile isSpace).reverse ++ _
    rw [List.append_assoc, ← hd2, List.takeWhile_append_dropWhile]
  · intro c hc
    exact List.mem_takeWhile_imp hc
  · intro c hc
    exact List.mem_takeWhile_imp (List.mem_reverse.mp hc)
  · intro c hc
    have hc1 : (((s.data.dropWhile isSpace).reverse.dropWhile isSpace).reverse).head? = some c := hc
    have h2 : (s.data.dropWhile isSpace).head? = some c := by
      rw [hd2]
      cases h : ((s.data.dropWhile isSpace).reverse.dropWhile isSpace).reverse with
      | nil => rw [h] at hc1; simp at hc1
      | cons a l => rw [h] at hc1; simpa using hc1
    have h3 := List.head?_dropWhile_not isSpace s.data
    rw [h2] at h3
    exact h3
  · intro c hc
    have hc1 : (((s.data.dropWhile isSpace).reverse.dropWhile isSpace).reverse).getLast? = some c := hc
    rw [List.getLast?_reverse] at hc1
    have h3 := List.head?_dropWhile_not isSpace (s.data.dropWhile isSpace).reverse
    rw [hc1] at h3
    exact h3

/-- Every iteration overwrites `lastTT`, so a normally ended loop leaves
`lastTT = ErrorToken`. -/
theorem loop_finished_lastTT (ts : List Token) :
    ∀ (st st1 : State) (w : String), loop st ts = (w, .finished st1) →
      st1.lastTT = .ErrorToken := by
  induction ts with
  | nil =>
    intro st st1 w h
    simp only [loop, Prod.mk.injEq, Exit.finished.injEq] at h
    rw [← h.2]
  | cons t ts ih =>
    intro st st1 w h
    simp only [loop] at h
    cases hb : body st t with
    | next st2 w2 =>
      rw [hb] at h
      simp only [Prod.mk.injEq] at h
      exact ih st2 st1 (loop st2 ts).1 (Prod.ext rfl h.2)
    | done st2 =>
      rw [hb] at h
      simp only [Prod.mk.injEq, Exit.finished.injEq] at h
      cases t with
      | Error err =>
        simp only [body] at hb
        split at hb
        · cases hb
        · cases hb
          rw [← h.2]
      | Text raw => simp [body] at hb
      | StartTag tag attr => simp [body] at hb
      | EndTag tag => simp [body] at hb
      | SelfClosingTag tag attr => simp [body] at hb
      | Comment => simp [body] at hb
      | Doctype => simp [body] at hb
      | Invalid n => simp [body] at hb
    | ret err =>
      rw [hb] at h
      simp at h

/-- The end-of-stream flush never fires: what `HtmlToText` writes is what its
loop writes. -/
theorem HtmlToText_out (ts : List Token) : (HtmlToText ts).1 = (loop State.init ts).1 := by
  unfold HtmlToText
  cases h : loop State.init ts with
  | mk w e =>
    cases e with
    | failed err => rfl
    | finished st =>
      have := loop_finished_lastTT ts State.init st w h
      simp [this]

/-- A normally ended loop makes `HtmlToText` return its output and no error. -/
theorem HtmlToText_of_finished (ts : List Token) (w : String) (st : State)
    (h : loop State.init ts = (w, .finished st)) : HtmlToText ts = (w, none) := by
  have hl := loop_finished_lastTT ts State.init st w h
  simp [HtmlToText, h, hl]

/-- A proper token lets the loop continue. -/
theorem body_proper (st : State) (t : Token) (ht : t.proper = true) :
    ∃ st1 w, body st t = .next st1 w := by
  cases t with
  | Error err => simp [Token.proper] at ht
  | Invalid n => simp [Token.proper] at ht
  | Text raw => exact ⟨_, _, rfl⟩
  | StartTag tag attr => exact ⟨_, _, rfl⟩
  | EndTag tag => exact ⟨_, _, rfl⟩
  | SelfClosingTag tag attr => exact ⟨_, _, rfl⟩
  | Comment => exact ⟨_, _, rfl⟩
  | Doctype => exact ⟨_, _, rfl⟩

/-- A fault after proper tokens: the loop has written what it writes for the
tokens alone and returns the fault. -/
theorem loop_fault (e : Error) (he : e ≠ Error.EOF) (ts : List Token)
    (hts : ∀ t ∈ ts, t.proper = true) :
    ∀ st : State, loop st (ts ++ [.Error e]) = ((loop st ts).1, .failed e) := by
  induction ts with
  | nil =>
    intro st
    simp [loop, body, he]
  | cons t ts ih =>
    intro st
    obtain ⟨st1, w, hb⟩ := body_proper st t (hts t (List.mem_cons_self _ _))
    have ih1 := ih (fun x hx => hts x (List.mem_cons_of_mem _ hx)) st1
    simp [loop, hb, ih1]

/-- The break counter is never negative once it is not. -/
theorem body_newLines_nonneg (st st1 : State) (t : Token) (w : String)
    (hb : body st t = .next st1 w) (h : 0 ≤ st.newLines) : 0 ≤ st1.newLines := by
  cases t with
  | Error err =>
    simp only [body] at hb
    split at hb <;> cases hb
  | Invalid n => simp [body] at hb
  | Text raw =>
    simp only [body, Outcome.next.injEq] at hb
    rw [← hb.1]
    simp only [textCase, apply_ite Prod.fst, apply_ite State.newLines]
    split_ifs <;> omega
  | StartTag tag attr =>
    simp only [body, Outcome.next.injEq] at hb
    rw [← hb.1]
    simp only [startCase, aCase, imgCase, apply_ite Prod.fst, apply_ite State.newLines]
    split_ifs <;> omega
  | EndTag tag =>
    simp only [body, Outcome.next.injEq] at hb
    rw [← hb.1]
    simp only [endCase, apply_ite Prod.fst, apply_ite State.newLines]
    split_ifs <;> omega
  | SelfClosingTag tag attr =>
    simp only [body, Outcome.next.injEq] at hb
    rw [← hb.1]
    simp only [selfClosingCase, aCase, imgCase, apply_ite Prod.fst, apply_ite State.newLines]
    split_ifs <;> omega
  | Comment =>
    simp only [body, Outcome.next.injEq] at hb
    rw [← hb.1]
    exact h
  | Doctype =>
    simp only [body, Outcome.next.injEq] at hb
    rw [← hb.1]
    exact h

/-- A relation between the outputs of two continuations that holds from every
state with a non-negative break counter, and is kept by writing the same
bytes in front, also holds behind any common run of leading tokens. -/
theorem loop_pre (R : String → String → Prop) (hrefl : ∀ x, R x x)
    (happ : ∀ w x y, R x y → R (w ++ x) (w ++ y)) (A B : List Token)
    (h : ∀ st : State, 0 ≤ st.newLines → R (loop st A).1 (loop st B).1) :
    ∀ (pre : List Token) (st : State), 0 ≤ st.newLines →
      R (loop st (pre ++ A)).1 (loop st (pre ++ B)).1 := by
  intro pre
  induction pre with
  | nil =>
    intro st hst
    exact h st hst
  | cons t pre ih =>
    intro st hst
    cases hb : body st t with
    | next st1 w =>
      simp only [List.cons_append, loop, hb]
      exact happ w _ _ (ih st1 (body_newLines_nonneg st st1 t w hb hst))
    | done st1 =>
      simp only [List.cons_append, loop, hb]
      exact hrefl _
    | ret err =>
      simp only [List.cons_append, loop, hb]
      exact hrefl _

/-- A break-triggering tag either writes nothing and keeps the break counter,
or finds the counter below 2, raises it and writes one or two newlines. -/
theorem body_break (st : State) (t : Token) (ht : isBreakTag t = true) :
    ∃ st1 w, body st t = .next st1 w ∧
      ((w = "" ∧ st1.newLines = st.newLines) ∨
       (st.newLines < 2 ∧ st.newLines + 1 ≤ st1.newLines ∧ (w = "\n" ∨ w = "\n\n"))) := by
  cases t with
  | Error err => simp [isBreakTag] at ht
  | Invalid n => simp [isBreakTag] at ht
  | Text raw => simp [isBreakTag] at ht
  | SelfClosingTag tag attr => simp [isBreakTag] at ht
  | Comment => simp [isBreakTag] at ht
  | Doctype => simp [isBreakTag] at ht
  | StartTag tag attr =>
    refine ⟨_, _, rfl, ?_⟩
    simp only [isBreakTag, breakNames, decide_eq_true_eq, List.mem_cons, List.mem_singleton,
      List.not_mem_nil, or_false] at ht
    by_cases hlt : st.newLines < 2
    · rcases ht with h | h | h | h | h | h | h | h | h | h | h | h | h | h | h <;> subst h <;>
        simp [startCase, skipTags, hlt]
    · rcases ht with h | h | h | h | h | h | h | h | h | h | h | h | h | h | h <;> subst h <;>
        simp [startCase, skipTags, hlt]
  | EndTag tag =>
    refine ⟨_, _, rfl, ?_⟩
    simp only [isBreakTag, breakNames, decide_eq_true_eq, List.mem_cons, List.mem_singleton,
      List.not_mem_nil, or_false] at ht
    by_cases hlt : st.newLines < 2
    · rcases ht with h | h | h | h | h | h | h | h | h | h | h | h | h | h | h <;> subst h <;>
        simp [endCase, skipTags, hlt]
    · rcases ht with h | h | h | h | h | h | h | h | h | h | h | h | h | h | h <;> subst h <;>
        simp [endCase, skipTags, hlt]

/-- A run of break-triggering tags writes newline characters only, and no more
than the break counter leaves room for: at most two writes of at most two
newlines. -/
theorem loop_break_run (ts : List Token) (hts : ∀ t ∈ ts, isBreakTag t = true) :
    ∀ st : State, 0 ≤ st.newLines →
      (∀ c ∈ (loop st ts).1.data, c = '\n') ∧
      ((loop st ts).1.length : Int) ≤ (if st.newLines < 2 then 4 - 2 * st.newLines else 0) := by
  induction ts with
  | nil =>
    intro st hst
    constructor
    · intro c hc
      simp [loop] at hc
    · simp only [loop, String.length_empty]
      split_ifs <;> omega
  | cons t ts ih =>
    intro st hst
    obtain ⟨st1, w, hb, hw⟩ := body_break st t (hts t (List.mem_cons_self _ _))
    have ih1 := ih (fun x hx => hts x (List.mem_cons_of_mem _ hx)) st1
      (body_newLines_nonneg st st1 t w hb hst)
    simp only [loop, hb, String.data_append, String.length_append, List.mem_append]
    rcases hw with ⟨hw1, hw2⟩ | ⟨hlt, hge, hw1 | hw1⟩
    · subst hw1
      rw [hw2] at ih1
      constructor
      · intro c hc
        rcases hc with hc | hc
        · simp at hc
        · exact ih1.1 c hc
      · simpa using ih1.2
    · subst hw1
      constructor
      · intro c hc
        rcases hc with hc | hc
        · simpa using hc
        · exact ih1.1 c hc
      · have h2 := ih1.2
        have hl : ("\n" : String).length = 1 := by decide
        rw [hl, if_pos hlt]
        push_cast
        split_ifs at h2 <;> omega
    · subst hw1
      constructor
      · intro c hc
        rcases hc with hc | hc
        · have hd : ("\n\n" : String).data = ['\n', '\n'] := by decide
          rw [hd] at hc
          simpa using hc
        · exact ih1.1 c hc
      · have h2 := ih1.2
        have hl : ("\n\n" : String).length = 2 := by decide
        rw [hl, if_pos hlt]
        push_cast
        split_ifs at h2 <;> omega

/-- The strict flag survives every token but a `head` end tag. -/
theorem body_reallyIgnore (st st1 : State) (t : Token) (w : String)
    (ht : t ≠ .EndTag "head") (hb : body st t = .next st1 w) (h : st.reallyIgnore = true) :
    st1.reallyIgnore = true := by
  cases t with
  | Error err =>
    simp only [body] at hb
    split at hb <;> cases hb
  | Invalid n => simp [body] at hb
  | Text raw =>
    simp only [body, Outcome.next.injEq] at hb
    rw [← hb.1]
    simp only [textCase, apply_ite Prod.fst, apply_ite State.reallyIgnore]
    split_ifs <;> exact h
  | StartTag tag attr =>
    simp only [body, Outcome.next.injEq] at hb
    rw [← hb.1]
    simp only [startCase, aCase, imgCase, apply_ite Prod.fst, apply_ite State.reallyIgnore]
    split_ifs <;> first | exact h | rfl
  | EndTag tag =>
    have htag : tag ≠ "head" := fun hh => ht (by rw [hh])
    simp only [body, Outcome.next.injEq] at hb
    rw [← hb.1]
    simp only [endCase, apply_ite Prod.fst, apply_ite State.reallyIgnore, if_neg htag]
    split_ifs <;> exact h
  | SelfClosingTag tag attr =>
    simp only [body, Outcome.next.injEq] at hb
    rw [← hb.1]
    simp only [selfClosingCase, aCase, imgCase, apply_ite Prod.fst,
      apply_ite State.reallyIgnore]
    split_ifs <;> exact h
  | Comment =>
    simp only [body, Outcome.next.injEq] at hb
    rw [← hb.1]
    exact h
  | Doctype =>
    simp only [body, Outcome.next.injEq] at hb
    rw [← hb.1]
    exact h

/-- While the strict flag is set and no `head` end tag arrives, a text token
at the end of the stream writes nothing. -/
theorem loop_head_text (s : String) (mid : List Token) (hmid : ∀ t ∈ mid, t ≠ .EndTag "head") :
    ∀ st : State, st.reallyIgnore = true →
      (loop st (mid ++ [.Text s])).1 = (loop st mid).1 := by
  induction mid with
  | nil =>
    intro st hst
    simp [loop, body, textCase, hst]
  | cons t mid ih =>
    intro st hst
    cases hb : body st t with
    | next st1 w =>
      simp only [List.cons_append, loop, hb]
      exact congrArg (fun x => w ++ x) (ih (fun x hx => hmid x (List.mem_cons_of_mem _ hx)) st1
        (body_reallyIgnore st st1 t w (hmid t (List.mem_cons_self _ _)) hb hst))
    | done st1 => simp only [List.cons_append, loop, hb]
    | ret err => simp only [List.cons_append, loop, hb]

/-- Writing in front of the accumulator of `String.intercalate`. -/
theorem intercalate_go_append (sep : String) (l : List String) :
    ∀ x acc : String, String.intercalate.go (x ++ acc) sep l
      = x ++ String.intercalate.go acc sep l := by
  induction l with
  | nil =>
    intro x acc
    simp [String.intercalate.go]
  | cons a l ih =>
    intro x acc
    simp only [String.intercalate.go]
    rw [String.append_assoc, String.append_assoc, ih, String.append_assoc]

/-- Joining a list of at least two strings: the first, the separator, the rest. -/
theorem intercalate_cons_cons (sep a b : String) (l : List String) :
    String.intercalate sep (a :: b :: l) = a ++ (sep ++ String.intercalate sep (b :: l)) := by
  simp only [String.intercalate, String.intercalate.go]
  rw [String.append_assoc, intercalate_go_append, intercalate_go_append]

/-- The items of a list and its end tag, from a state in which text is
written and no URL is pending: every item is a line `* text`, a newline
separates an item from what came before when the break counter is below 2,
the end tag closes the list with a blank line, and the loop ends normally. -/
theorem loop_listItems (rest : List String) :
    ∀ (t : String) (st : State), (∀ x ∈ t :: rest, TrimSpace x ≠ "") →
      st.ignore = false → st.reallyIgnore = false → st.url = "" →
      (loop st (listItems (t :: rest) ++ [.EndTag "ul"])).1
        = (if st.newLines < 2 then "\n" else "")
            ++ (String.intercalate "\n" ((t :: rest).map (fun x => "* " ++ TrimSpace x))
            ++ "\n\n") ∧
      ∃ st1, (loop st (listItems (t :: rest) ++ [.EndTag "ul"])).2 = .finished st1 := by
  induction rest with
  | nil =>
    intro t st hne hi hr hu
    have ht : TrimSpace t ≠ "" := hne t (List.mem_cons_self _ _)
    cases st with
    | mk lt nl u ig ri =>
      simp only at hi hr hu
      subst hi hr hu
      simp [listItems, loop, body, startCase, endCase, textCase, skipTags, ht,
        String.intercalate, String.intercalate.go, String.append_assoc]
  | cons t2 rest ih =>
    intro t st hne hi hr hu
    have ht : TrimSpace t ≠ "" := hne t (List.mem_cons_self _ _)
    obtain ⟨h1, st1, h2⟩ := ih t2 ⟨.EndTagToken, 0, "", false, false⟩
      (fun x hx => hne x (List.mem_cons_of_mem _ hx)) rfl rfl rfl
    have hstep : loop st (listItems (t :: t2 :: rest) ++ [.EndTag "ul"])
        = ((if st.newLines < 2 then "\n" else "") ++ ("* " ++ (TrimSpace t
            ++ (loop ⟨.EndTagToken, 0, "", false, false⟩
                  (listItems (t2 :: rest) ++ [.EndTag "ul"])).1)),
           (loop ⟨.EndTagToken, 0, "", false, false⟩
                  (listItems (t2 :: rest) ++ [.EndTag "ul"])).2) := by
      cases st with
      | mk lt nl u ig ri =>
        simp only at hi hr hu
        subst hi hr hu
        simp [listItems, loop, body, startCase, endCase, textCase, skipTags, ht,
          String.append_assoc]
    rw [hstep]
    refine ⟨?_, st1, h2⟩
    simp only [h1, List.map_cons, intercalate_cons_cons]
    simp [String.append_assoc]

/-- Case analysis on the start-tag switch. -/
theorem startCase_elim (P : State × String → Prop) (st : State) (tag : String) (attr : Attrs)
    (h1 : tag = "head" → P ({ st with reallyIgnore := true }, ""))
    (h2 : tag ∈ skipTags → P ({ st with ignore := true }, ""))
    (h3 : tag ∈ ["div", "ul", "tr", "ol", "p", "br", "table"] →
      P (if st.newLines < 2 then ({ st with newLines := st.newLines + 1 }, "\n") else (st, "")))
    (h4 : tag ∈ ["h1", "h2", "h3", "h4", "h5", "h6", "pre", "blockquote"] →
      P (if st.newLines < 2 then ({ st with newLines := st.newLines + 1 }, "\n\n") else (st, "")))
    (h5 : tag = "li" →
      P ({ st with newLines := 2 }, (if st.newLines < 2 then "\n" else "") ++ "* "))
    (h6 : tag = "hr" →
      P ({ st with newLines := 1 }, (if st.newLines < 2 then "\n" else "") ++ "---\n"))
    (h7 : tag ∈ ["td", "th"] → P ({ st with newLines := 0 }, ""))
    (h8 : tag = "a" → P (aCase st attr))
    (h9 : tag = "img" → P (imgCase st attr))
    (h10 : P (st, "")) :
    P (startCase st tag attr) := by
  unfold startCase
  by_cases c1 : tag = "head"
  · rw [if_pos c1]; exact h1 c1
  rw [if_neg c1]
  by_cases c2 : tag ∈ skipTags
  · rw [if_pos c2]; exact h2 c2
  rw [if_neg c2]
  by_cases c3 : tag ∈ ["div", "ul", "tr", "ol", "p", "br", "table"]
  · rw [if_pos c3]; exact h3 c3
  rw [if_neg c3]
  by_cases c4 : tag ∈ ["h1", "h2", "h3", "h4", "h5", "h6", "pre", "blockquote"]
  · rw [if_pos c4]; exact h4 c4
  rw [if_neg c4]
  by_cases c5 : tag = "li"
  · rw [if_pos c5]; exact h5 c5
  rw [if_neg c5]
  by_cases c6 : tag = "hr"
  · rw [if_pos c6]; exact h6 c6
  rw [if_neg c6]
  by_cases c7 : tag ∈ ["td", "th"]
  · rw [if_pos c7]; exact h7 c7
  rw [if_neg c7]
  by_cases c8 : tag = "a"
  · rw [if_pos c8]; exact h8 c8
  rw [if_neg c8]
  by_cases c9 : tag = "img"
  · rw [if_pos c9]; exact h9 c9
  rw [if_neg c9]
  exact h10

/-- Case analysis on the end-tag switch. -/
theorem endCase_elim (P : State × String → Prop) (st : State) (tag : String)
    (h1 : tag = "head" → P ({ st with reallyIgnore := false }, ""))
    (h2 : tag ∈ skipTags → P ({ st with ignore := false }, ""))
    (h3 : tag ∈ ["ul", "ol", "pre", "table", "blockquote", "h1", "h2", "h3", "h4", "h5", "h6"] →
      P (if st.newLines < 2 then ({ st with newLines := st.newLines + 2 }, "\n\n") else (st, "")))
    (h4 : tag = "hr" →
      P (if st.newLines < 2 then ({ st with newLines := st.newLines + 1 }, "\n") else (st, "")))
    (h5 : P (st, "")) :
    P (endCase st tag) := by
  unfold endCase
  by_cases c1 : tag = "head"
  · rw [if_pos c1]; exact h1 c1
  rw [if_neg c1]
  by_cases c2 : tag ∈ skipTags
  · rw [if_pos c2]; exact h2 c2
  rw [if_neg c2]
  by_cases c3 : tag ∈ ["ul", "ol", "pre", "table", "blockquote", "h1", "h2", "h3", "h4", "h5",
      "h6"]
  · rw [if_pos c3]; exact h3 c3
  rw [if_neg c3]
  by_cases c4 : tag = "hr"
  · rw [if_pos c4]; exact h4 c4
  rw [if_neg c4]
  exact h5

/-- Case analysis on the self-closing-tag switch. -/
theorem selfClosingCase_elim (P : State × String → Prop) (st : State) (tag : String)
    (attr : Attrs)
    (h1 : tag ∈ ["div", "li", "br", "p"] →
      P (if st.newLines < 2 then ({ st with newLines := st.newLines + 1 }, "\n") else (st, "")))
    (h2 : tag = "hr" →
      P ({ st with newLines := 2 }, (if st.newLines < 2 then "\n\n" else "") ++ "---\n\n"))
    (h3 : tag = "a" → P (aCase st attr))
    (h4 : tag = "img" → P (imgCase st attr))
    (h5 : P (st, "")) :
    P (selfClosingCase st tag attr) := by
  unfold selfClosingCase
  by_cases c1 : tag ∈ ["div", "li", "br", "p"]
  · rw [if_pos c1]; exact h1 c1
  rw [if_neg c1]
  by_cases c2 : tag = "hr"
  · rw [if_pos c2]; exact h2 c2
  rw [if_neg c2]
  by_cases c3 : tag = "a"
  · rw [if_pos c3]; exact h3 c3
  rw [if_neg c3]
  by_cases c4 : tag = "img"
  · rw [if_pos c4]; exact h4 c4
  rw [if_neg c4]
  exact h5

/-- The suppression flag survives every token but an end tag with a
suppressed name. -/
theorem body_ignore (st st1 : State) (t : Token) (w : String)
    (ht : ∀ m, t = .EndTag m → m ∉ skipTags) (hb : body st t = .next st1 w)
    (h : st.ignore = true) : st1.ignore = true := by
  cases t with
  | Error err =>
    simp only [body] at hb
    split at hb <;> cases hb
  | Invalid n => simp [body] at hb
  | Text raw =>
    simp only [body, Outcome.next.injEq] at hb
    rw [← hb.1]
    simp only [textCase, apply_ite Prod.fst, apply_ite State.ignore]
    split_ifs <;> exact h
  | StartTag tag attr =>
    simp only [body, Outcome.next.injEq] at hb
    rw [← hb.1]
    show (startCase st tag attr).1.ignore = true
    refine startCase_elim (fun r => r.1.ignore = true) st tag attr ?_ ?_ ?_ ?_ ?_ ?_ ?_ ?_ ?_ ?_
    all_goals first
      | exact h
      | (intro _; first | exact h | rfl | (split_ifs <;> exact h))
  | EndTag tag =>
    have hm : tag ∉ skipTags := ht tag rfl
    simp only [body, Outcome.next.injEq] at hb
    rw [← hb.1]
    show (endCase st tag).1.ignore = true
    refine endCase_elim (fun r => r.1.ignore = true) st tag ?_ ?_ ?_ ?_ ?_
    · intro _; exact h
    · intro hc; exact absurd hc hm
    · intro _; split_ifs <;> exact h
    · intro _; split_ifs <;> exact h
    · exact h
  | SelfClosingTag tag attr =>
    simp only [body, Outcome.next.injEq] at hb
    rw [← hb.1]
    show (selfClosingCase st tag attr).1.ignore = true
    refine selfClosingCase_elim (fun r => r.1.ignore = true) st tag attr ?_ ?_ ?_ ?_ ?_
    all_goals first
      | exact h
      | (intro _; first | exact h | rfl | (split_ifs <;> exact h))
  | Comment =>
    simp only [body, Outcome.next.injEq] at hb
    rw [← hb.1]
    exact h
  | Doctype =>
    simp only [body, Outcome.next.injEq] at hb
    rw [← hb.1]
    exact h

/-- While the suppression flag is set and no end tag with a suppressed name
arrives, a text token at the end of the stream writes nothing. -/
theorem loop_skip_text (s : String) (mid : List Token)
    (hmid : ∀ t ∈ mid, ∀ m, t = .EndTag m → m ∉ skipTags) :
    ∀ st : State, st.ignore = true →
      (loop st (mid ++ [.Text s])).1 = (loop st mid).1 := by
  induction mid with
  | nil =>
    intro st hst
    simp [loop, body, textCase, hst]
  | cons t mid ih =>
    intro st hst
    cases hb : body st t with
    | next st1 w =>
      simp only [List.cons_append, loop, hb]
      exact congrArg (fun x => w ++ x) (ih (fun x hx => hmid x (List.mem_cons_of_mem _ hx)) st1
        (body_ignore st st1 t w (hmid t (List.mem_cons_self _ _)) hb hst))
    | done st1 => simp only [List.cons_append, loop, hb]
    | ret err => simp only [List.cons_append, loop, hb]

/-- A suppressed name is not `head`. -/
theorem skipTags_ne_head (n : String) (hn : n ∈ skipTags) : n ≠ "head" := by
  intro h
  rw [h] at hn
  revert hn
  decide

/-- The `href` loop over attributes none of which has the key `href` keeps
the URL. -/
theorem hrefLoop_no_href (attr : Attrs) (h : ∀ kv ∈ attr, kv.1 ≠ "href") :
    ∀ url : String, hrefLoop url attr = url := by
  induction attr with
  | nil => intro url; rfl
  | cons kv rest ih =>
    intro url
    obtain ⟨k, v⟩ := kv
    have hk : k ≠ "href" := h (k, v) (List.mem_cons_self _ _)
    simp only [hrefLoop, if_neg hk]
    exact ih (fun x hx => h x (List.mem_cons_of_mem _ hx)) url

/-- The `href` loop returns the value of the last attribute with key `href`. -/
theorem hrefLoop_last (l1 l2 : Attrs) (v : String) (h : ∀ kv ∈ l2, kv.1 ≠ "href") :
    ∀ url : String, hrefLoop url (l1 ++ ("href", v) :: l2) = v := by
  induction l1 with
  | nil =>
    intro url
    simp only [List.nil_append, hrefLoop, if_true]
    exact hrefLoop_no_href l2 h v
  | cons kv rest ih =>
    intro url
    obtain ⟨k, w⟩ := kv
    simp only [List.cons_append, hrefLoop]
    exact ih _

/-- Repeated start tags of a suppressed name before its end tag and a text
token leave the loop as the end tag and the text token alone do. -/
theorem loop_replicate_open (n t : String) (a : Attrs) (hn : n ∈ skipTags) (k : Nat) :
    ∀ st : State, loop st (List.replicate k (.StartTag n a) ++ [.EndTag n, .Text t])
      = loop st [.EndTag n, .Text t] := by
  have hhead := skipTags_ne_head n hn
  induction k with
  | zero => intro st; rfl
  | succ k ih =>
    intro st
    have hb : body st (.StartTag n a)
        = .next { st with ignore := true, lastTT := .StartTagToken } "" := by
      simp [body, startCase, hn, hhead]
    rw [List.replicate_succ, List.cons_append]
    simp only [loop, hb]
    rw [ih]
    simp [loop, body, endCase, textCase, hn, hhead]

/-- A tag name outside the handled and suppressed vocabularies falls through
the start-tag switch. -/
theorem startCase_other (st : State) (tag : String) (attr : Attrs)
    (h1 : tag ∉ handledTags) (h2 : tag ∉ skipTags) (h3 : tag ≠ "head") :
    startCase st tag attr = (st, "") := by
  refine startCase_elim (fun r => r = (st, "")) st tag attr ?_ ?_ ?_ ?_ ?_ ?_ ?_ ?_ ?_ rfl
  · intro hc; exact absurd hc h3
  · intro hc; exact absurd hc h2
  · intro hc
    exact absurd ((by decide : ∀ x ∈ ["div", "ul", "tr", "ol", "p", "br", "table"],
      x ∈ handledTags) tag hc) h1
  · intro hc
    exact absurd ((by decide : ∀ x ∈ ["h1", "h2", "h3", "h4", "h5", "h6", "pre", "blockquote"],
      x ∈ handledTags) tag hc) h1
  · intro hc; rw [hc] at h1; exact absurd (by decide) h1
  · intro hc; rw [hc] at h1; exact absurd (by decide) h1
  · intro hc
    exact absurd ((by decide : ∀ x ∈ ["td", "th"], x ∈ handledTags) tag hc) h1
  · intro hc; rw [hc] at h1; exact absurd (by decide) h1
  · intro hc; rw [hc] at h1; exact absurd (by decide) h1

/-- A tag name outside the handled and suppressed vocabularies falls through
the end-tag switch. -/
theorem endCase_other (st : State) (tag : String)
    (h1 : tag ∉ handledTags) (h2 : tag ∉ skipTags) (h3 : tag ≠ "head") :
    endCase st tag = (st, "") := by
  refine endCase_elim (fun r => r = (st, "")) st tag ?_ ?_ ?_ ?_ rfl
  · intro hc; exact absurd hc h3
  · intro hc; exact absurd hc h2
  · intro hc
    exact absurd ((by decide : ∀ x ∈ ["ul", "ol", "pre", "table", "blockquote", "h1", "h2", "h3",
      "h4", "h5", "h6"], x ∈ handledTags) tag hc) h1
  · intro hc; rw [hc] at h1; exact absurd (by decide) h1

/-- A tag name outside the handled vocabulary falls through the
self-closing-tag switch. -/
theorem selfClosingCase_other (st : State) (tag : String) (attr : Attrs)
    (h1 : tag ∉ handledTags) : selfClosingCase st tag attr = (st, "") := by
  refine selfClosingCase_elim (fun r => r = (st, "")) st tag attr ?_ ?_ ?_ ?_ rfl
  · intro hc
    exact absurd ((by decide : ∀ x ∈ ["div", "li", "br", "p"], x ∈ handledTags) tag hc) h1
  · intro hc; rw [hc] at h1; exact absurd (by decide) h1
  · intro hc; rw [hc] at h1; exact absurd (by decide) h1
  · intro hc; rw [hc] at h1; exact absurd (by decide) h1

/-- The clamp keeps the test `newLines < 2`. -/
theorem sat_lt_two (n : Int) : sat n < 2 ↔ n < 2 := by
  unfold sat; split_ifs <;> omega

/-- The clamp keeps the test `newLines == 0`. -/
theorem sat_eq_zero (n : Int) : sat n = 0 ↔ n = 0 := by
  unfold sat; split_ifs <;> omega

/-- The clamp keeps the test `newLines > 0`. -/
theorem sat_pos (n : Int) : sat n > 0 ↔ n > 0 := by
  unfold sat; split_ifs <;> omega

/-- Clamping twice is clamping once. -/
theorem sat_sat (n : Int) : sat (sat n) = sat n := by
  unfold sat; split_ifs <;> omega

/-- Clamping commutes with `newLines++` below 2. -/
theorem sat_add_one (n : Int) (h : n < 2) : sat (sat n + 1) = sat (n + 1) := by
  unfold sat; split_ifs <;> omega

/-- Clamping commutes with `newLines += 2` below 2. -/
theorem sat_add_two (n : Int) (h : n < 2) : sat (sat n + 2) = sat (n + 2) := by
  unfold sat; split_ifs <;> omega

/-- The start-tag switch writes the same from a clamped state and leaves the
same clamped state. -/
theorem startCase_sat (st : State) (tag : String) (attr : Attrs) :
    (startCase st.sat tag attr).2 = (startCase st tag attr).2 ∧
    (startCase st.sat tag attr).1.sat = (startCase st tag attr).1.sat := by
  cases st with
  | mk lt nl u ig ri =>
    unfold startCase
    by_cases c1 : tag = "head"
    · simp only [if_pos c1, State.sat, sat_sat, and_self]
    simp only [if_neg c1]
    by_cases c2 : tag ∈ skipTags
    · simp only [if_pos c2, State.sat, sat_sat, and_self]
    simp only [if_neg c2]
    by_cases c3 : tag ∈ ["div", "ul", "tr", "ol", "p", "br", "table"]
    · simp only [if_pos c3, State.sat, sat_lt_two]
      by_cases hlt : nl < 2
      · simp only [if_pos hlt, sat_add_one nl hlt, and_self]
      · simp only [if_neg hlt, sat_sat, and_self]
    simp only [if_neg c3]
    by_cases c4 : tag ∈ ["h1", "h2", "h3", "h4", "h5", "h6", "pre", "blockquote"]
    · simp only [if_pos c4, State.sat, sat_lt_two]
      by_cases hlt : nl < 2
      · simp only [if_pos hlt, sat_add_one nl hlt, and_self]
      · simp only [if_neg hlt, sat_sat, and_self]
    simp only [if_neg c4]
    by_cases c5 : tag = "li"
    · simp only [if_pos c5, State.sat, sat_lt_two, and_self]
    simp only [if_neg c5]
    by_cases c6 : tag = "hr"
    · simp only [if_pos c6, State.sat, sat_lt_two, and_self]
    simp only [if_neg c6]
    by_cases c7 : tag ∈ ["td", "th"]
    · simp only [if_pos c7, State.sat, and_self]
    simp only [if_neg c7]
    by_cases c8 : tag = "a"
    · simp only [if_pos c8, State.sat, aCase, and_self]
    simp only [if_neg c8]
    by_cases c9 : tag = "img"
    · simp only [if_pos c9, State.sat, imgCase, sat_pos, and_self]
    simp only [if_neg c9, State.sat, sat_sat, and_self]

/-- The end-tag switch writes the same from a clamped state and leaves the
same clamped state. -/
theorem endCase_sat (st : State) (tag : String) :
    (endCase st.sat tag).2 = (endCase st tag).2 ∧
    (endCase st.sat tag).1.sat = (endCase st tag).1.sat := by
  cases st with
  | mk lt nl u ig ri =>
    unfold endCase
    by_cases c1 : tag = "head"
    · simp only [if_pos c1, State.sat, sat_sat, and_self]
    simp only [if_neg c1]
    by_cases c2 : tag ∈ skipTags
    · simp only [if_pos c2, State.sat, sat_sat, and_self]
    simp only [if_neg c2]
    by_cases c3 : tag ∈ ["ul", "ol", "pre", "table", "blockquote", "h1", "h2", "h3", "h4", "h5",
        "h6"]
    · simp only [if_pos c3, State.sat, sat_lt_two]
      by_cases hlt : nl < 2
      · simp only [if_pos hlt, sat_add_two nl hlt, and_self]
      · simp only [if_neg hlt, sat_sat, and_self]
    simp only [if_neg c3]
    by_cases c4 : tag = "hr"
    · simp only [if_pos c4, State.sat, sat_lt_two]
      by_cases hlt : nl < 2
      · simp only [if_pos hlt, sat_add_one nl hlt, and_self]
      · simp only [if_neg hlt, sat_sat, and_self]
    simp only [if_neg c4, State.sat, sat_sat, and_self]

/-- The self-closing-tag switch writes the same from a clamped state and
leaves the same clamped state. -/
theorem selfClosingCase_sat (st : State) (tag : String) (attr : Attrs) :
    (selfClosingCase st.sat tag attr).2 = (selfClosingCase st tag attr).2 ∧
    (selfClosingCase st.sat tag attr).1.sat = (selfClosingCase st tag attr).1.sat := by
  cases st with
  | mk lt nl u ig ri =>
    unfold selfClosingCase
    by_cases c1 : tag ∈ ["div", "li", "br", "p"]
    · simp only [if_pos c1, State.sat, sat_lt_two]
      by_cases hlt : nl < 2
      · simp only [if_pos hlt, sat_add_one nl hlt, and_self]
      · simp only [if_neg hlt, sat_sat, and_self]
    simp only [if_neg c1]
    by_cases c2 : tag = "hr"
    · simp only [if_pos c2, State.sat, sat_lt_two, and_self]
    simp only [if_neg c2]
    by_cases c3 : tag = "a"
    · simp only [if_pos c3, State.sat, aCase, and_self]
    simp only [if_neg c3]
    by_cases c4 : tag = "img"
    · simp only [if_pos c4, State.sat, imgCase, sat_pos, and_self]
    simp only [if_neg c4, State.sat, sat_sat, and_self]

/-- The text branch writes the same from a clamped state and leaves the same
clamped state. -/
theorem textCase_sat (st : State) (raw : String) :
    (textCase st.sat raw).2 = (textCase st raw).2 ∧
    (textCase st.sat raw).1.sat = (textCase st raw).1.sat := by
  cases st with
  | mk lt nl u ig ri =>
    unfold textCase
    by_cases c1 : (!ig && !ri) = true
    · simp only [State.sat, if_pos c1, sat_eq_zero]
      by_cases c2 : u ≠ ""
      · simp only [if_pos c2, if_pos (Or.inr c2 : TrimSpace raw ≠ "" ∨ u ≠ ""), and_self]
      · simp only [if_neg c2]
        by_cases c3 : TrimSpace raw ≠ ""
        · simp only [if_pos (Or.inl c3 : TrimSpace raw ≠ "" ∨ u ≠ ""), and_self]
        · have d : ¬ (TrimSpace raw ≠ "" ∨ u ≠ "") := fun h => h.elim c3 c2
          simp only [if_neg d, sat_sat, and_self]
    · simp only [State.sat, if_neg c1, sat_sat, and_self]

/-- An iteration of the saturating machine does not see whether its state was
clamped before. -/
theorem satBody_sat (st : State) (t : Token) : satBody st.sat t = satBody st t := by
  cases t with
  | Error err =>
    simp only [satBody, body]
    split_ifs
    · rfl
    · simp only [State.sat, sat_sat]
  | Invalid n => rfl
  | Text raw =>
    have h := textCase_sat st raw
    simp only [satBody, body, Outcome.next.injEq]
    refine ⟨?_, h.1⟩
    have h2 := h.2
    simp only [State.sat, State.mk.injEq] at h2 ⊢
    exact ⟨trivial, h2.2.1, h2.2.2.1, h2.2.2.2.1, h2.2.2.2.2⟩
  | StartTag tag attr =>
    have h := startCase_sat st tag attr
    simp only [satBody, body, Outcome.next.injEq]
    refine ⟨?_, h.1⟩
    have h2 := h.2
    simp only [State.sat, State.mk.injEq] at h2 ⊢
    exact ⟨trivial, h2.2.1, h2.2.2.1, h2.2.2.2.1, h2.2.2.2.2⟩
  | EndTag tag =>
    have h := endCase_sat st tag
    simp only [satBody, body, Outcome.next.injEq]
    refine ⟨?_, h.1⟩
    have h2 := h.2
    simp only [State.sat, State.mk.injEq] at h2 ⊢
    exact ⟨trivial, h2.2.1, h2.2.2.1, h2.2.2.2.1, h2.2.2.2.2⟩
  | SelfClosingTag tag attr =>
    have h := selfClosingCase_sat st tag attr
    simp only [satBody, body, Outcome.next.injEq]
    refine ⟨?_, h.1⟩
    have h2 := h.2
    simp only [State.sat, State.mk.injEq] at h2 ⊢
    exact ⟨trivial, h2.2.1, h2.2.2.1, h2.2.2.2.1, h2.2.2.2.2⟩
  | Comment => simp only [satBody, body, State.sat, sat_sat]
  | Doctype => simp only [satBody, body, State.sat, sat_sat]

/-- Simulation: from the clamped state the saturating loop writes what the
source loop writes and ends the same way, up to the clamp. -/
theorem satLoop_sat (ts : List Token) :
    ∀ st : State, satLoop st.sat ts = ((loop st ts).1, (loop st ts).2.sat) := by
  induction ts with
  | nil => intro st; rfl
  | cons t ts ih =>
    intro st
    cases hb : body st t with
    | next st1 w =>
      have e : satBody st.sat t = .next st1.sat w := by
        rw [satBody_sat]; simp only [satBody, hb]
      simp only [satLoop, loop, e, hb, ih st1]
    | done st1 =>
      have e : satBody st.sat t = .done st1.sat := by
        rw [satBody_sat]; simp only [satBody, hb]
      simp only [satLoop, loop, e, hb, Exit.sat]
    | ret err =>
      have e : satBody st.sat t = .ret err := by
        rw [satBody_sat]; simp only [satBody, hb]
      simp only [satLoop, loop, e, hb, Exit.sat]

/-- The break counter stays at most 3. -/
theorem body_newLines_le (st st1 : State) (t : Token) (w : String)
    (hb : body st t = .next st1 w) (h : st.newLines ≤ 3) : st1.newLines ≤ 3 := by
  cases t with
  | Error err =>
    simp only [body] at hb
    split at hb <;> cases hb
  | Invalid n => simp [body] at hb
  | Text raw =>
    simp only [body, Outcome.next.injEq] at hb
    rw [← hb.1]
    simp only [textCase, apply_ite Prod.fst, apply_ite State.newLines]
    split_ifs <;> omega
  | StartTag tag attr =>
    simp only [body, Outcome.next.injEq] at hb
    rw [← hb.1]
    simp only [startCase, aCase, imgCase, apply_ite Prod.fst, apply_ite State.newLines]
    split_ifs <;> omega
  | EndTag tag =>
    simp only [body, Outcome.next.injEq] at hb
    rw [← hb.1]
    simp only [endCase, apply_ite Prod.fst, apply_ite State.newLines]
    split_ifs <;> omega
  | SelfClosingTag tag attr =>
    simp only [body, Outcome.next.injEq] at hb
    rw [← hb.1]
    simp only [selfClosingCase, aCase, imgCase, apply_ite Prod.fst, apply_ite State.newLines]
    split_ifs <;> omega
  | Comment =>
    simp only [body, Outcome.next.injEq] at hb
    rw [← hb.1]
    exact h
  | Doctype =>
    simp only [body, Outcome.next.injEq] at hb
    rw [← hb.1]
    exact h

/-- The end-of-stream iteration keeps the break counter. -/
theorem body_done_newLines (st st1 : State) (t : Token) (hb : body st t = .done st1) :
    st1.newLines = st.newLines := by
  cases t with
  | Error err =>
    simp only [body] at hb
    split at hb
    · cases hb
    · cases hb; rfl
  | Invalid n => simp [body] at hb
  | Text raw => simp [body] at hb
  | StartTag tag attr => simp [body] at hb
  | EndTag tag => simp [body] at hb
  | SelfClosingTag tag attr => simp [body] at hb
  | Comment => simp [body] at hb
  | Doctype => simp [body] at hb

/-- Every state of a run that starts with the counter between 0 and 3 has it
between 0 and 3. -/
theorem states_range (ts : List Token) :
    ∀ st : State, 0 ≤ st.newLines → st.newLines ≤ 3 →
      ∀ x ∈ states st ts, 0 ≤ x.newLines ∧ x.newLines ≤ 3 := by
  induction ts with
  | nil =>
    intro st h0 h3 x hx
    simp only [states, List.mem_cons, List.mem_singleton, List.not_mem_nil, or_false] at hx
    rcases hx with hx | hx <;> (subst hx; exact ⟨h0, h3⟩)
  | cons t ts ih =>
    intro st h0 h3 x hx
    cases hb : body st t with
    | next st1 w =>
      simp only [states, hb, List.mem_cons] at hx
      rcases hx with hx | hx
      · subst hx; exact ⟨h0, h3⟩
      · exact ih st1 (body_newLines_nonneg st st1 t w hb h0) (body_newLines_le st st1 t w hb h3)
          x hx
    | done st1 =>
      simp only [states, hb, List.mem_cons, List.mem_singleton, List.not_mem_nil, or_false] at hx
      have hd := body_done_newLines st st1 t hb
      rcases hx with hx | hx
      · subst hx; exact ⟨h0, h3⟩
      · subst hx; rw [hd]; exact ⟨h0, h3⟩
    | ret err =>
      simp only [states, hb, List.mem_singleton] at hx
      subst hx; exact ⟨h0, h3⟩

/-- A non-empty trimmed text starts with a character that is not a newline. -/
theorem TrimSpace_head (raw : String) (h : TrimSpace raw ≠ "") :
    ∃ c, (TrimSpace raw).data.head? = some c ∧ c ≠ '\n' := by
  obtain ⟨_, _, _, _, _, hh, _⟩ := TrimSpace_spec raw
  cases hd : (TrimSpace raw).data with
  | nil =>
    exact absurd (String.ext hd) h
  | cons c l =>
    refine ⟨c, rfl, ?_⟩
    intro hc
    have h1 := hh c (by rw [hd]; rfl)
    rw [hc] at h1
    revert h1
    decide

/-- With the break counter at 2 or more and no URL pending, a token that is
not a counter-resetting tag either writes nothing and keeps both facts, or
writes something that does not start with a newline. -/
theorem body_lead (st st1 : State) (t : Token) (w : String) (ht : isResetTag t = false)
    (hb : body st t = .next st1 w) (hn : 2 ≤ st.newLines) (hu : st.url = "") :
    (w = "" ∧ 2 ≤ st1.newLines ∧ st1.url = "") ∨
    (∃ c, w.data.head? = some c ∧ c ≠ '\n') := by
  have hlt : ¬ st.newLines < 2 := by omega
  cases t with
  | Error err =>
    simp only [body] at hb
    split at hb <;> cases hb
  | Invalid n => simp [body] at hb
  | Comment =>
    simp only [body, Outcome.next.injEq] at hb
    rw [← hb.1, ← hb.2]
    exact Or.inl ⟨rfl, hn, hu⟩
  | Doctype =>
    simp only [body, Outcome.next.injEq] at hb
    rw [← hb.1, ← hb.2]
    exact Or.inl ⟨rfl, hn, hu⟩
  | Text raw =>
    simp only [body, Outcome.next.injEq] at hb
    rw [← hb.1, ← hb.2]
    show ((textCase st raw).2 = "" ∧ 2 ≤ (textCase st raw).1.newLines ∧ (textCase st raw).1.url = "")
      ∨ ∃ c, (textCase st raw).2.data.head? = some c ∧ c ≠ '\n'
    have hn0 : ¬ st.newLines = 0 := by omega
    have hu' : ¬ st.url ≠ "" := fun h => h hu
    unfold textCase
    by_cases c1 : (!st.ignore && !st.reallyIgnore) = true
    · simp only [if_pos c1, if_neg hu']
      by_cases c3 : TrimSpace raw ≠ ""
      · right
        have hw : ¬ (TrimSpace raw ≠ "" ∧ st.newLines = 0) := fun h => hn0 h.2
        simp only [if_neg hw, String.empty_append]
        exact TrimSpace_head raw c3
      · left
        have hw : ¬ (TrimSpace raw ≠ "" ∧ st.newLines = 0) := fun h => hn0 h.2
        have d : ¬ (TrimSpace raw ≠ "" ∨ st.url ≠ "") := fun h => h.elim c3 hu'
        have he : TrimSpace raw = "" := not_not.mp c3
        simp only [if_neg hw, if_neg d, String.empty_append]
        exact ⟨he, hn, hu⟩
    · rw [if_neg c1]
      exact Or.inl ⟨rfl, hn, hu⟩
  | StartTag tag attr =>
    simp only [isResetTag, decide_eq_false_iff_not] at ht
    simp only [body, Outcome.next.injEq] at hb
    rw [← hb.1, ← hb.2]
    show ((startCase st tag attr).2 = "" ∧ 2 ≤ (startCase st tag attr).1.newLines
        ∧ (startCase st tag attr).1.url = "")
      ∨ ∃ c, (startCase st tag attr).2.data.head? = some c ∧ c ≠ '\n'
    refine startCase_elim (fun r => (r.2 = "" ∧ 2 ≤ r.1.newLines ∧ r.1.url = "")
      ∨ ∃ c, r.2.data.head? = some c ∧ c ≠ '\n') st tag attr ?_ ?_ ?_ ?_ ?_ ?_ ?_ ?_ ?_ ?_
    · intro _; exact Or.inl ⟨rfl, hn, hu⟩
    · intro _; exact Or.inl ⟨rfl, hn, hu⟩
    · intro _; rw [if_neg hlt]; exact Or.inl ⟨rfl, hn, hu⟩
    · intro _; rw [if_neg hlt]; exact Or.inl ⟨rfl, hn, hu⟩
    · intro _; right; simp only [if_neg hlt]; exact ⟨'*', by decide, by decide⟩
    · intro _; right; simp only [if_neg hlt]; exact ⟨'-', by decide, by decide⟩
    · intro hc
      exact absurd ((by decide : ∀ x ∈ ["td", "th"], x ∈ ["td", "th", "a", "img"]) tag hc) ht
    · intro hc; rw [hc] at ht; exact absurd (by decide) ht
    · intro hc; rw [hc] at ht; exact absurd (by decide) ht
    · exact Or.inl ⟨rfl, hn, hu⟩
  | EndTag tag =>
    simp only [body, Outcome.next.injEq] at hb
    rw [← hb.1, ← hb.2]
    show ((endCase st tag).2 = "" ∧ 2 ≤ (endCase st tag).1.newLines
        ∧ (endCase st tag).1.url = "")
      ∨ ∃ c, (endCase st tag).2.data.head? = some c ∧ c ≠ '\n'
    refine endCase_elim (fun r => (r.2 = "" ∧ 2 ≤ r.1.newLines ∧ r.1.url = "")
      ∨ ∃ c, r.2.data.head? = some c ∧ c ≠ '\n') st tag ?_ ?_ ?_ ?_ ?_
    · intro _; exact Or.inl ⟨rfl, hn, hu⟩
    · intro _; exact Or.inl ⟨rfl, hn, hu⟩
    · intro _; rw [if_neg hlt]; exact Or.inl ⟨rfl, hn, hu⟩
    · intro _; rw [if_neg hlt]; exact Or.inl ⟨rfl, hn, hu⟩
    · exact Or.inl ⟨rfl, hn, hu⟩
  | SelfClosingTag tag attr =>
    simp only [isResetTag, decide_eq_false_iff_not] at ht
    simp only [body, Outcome.next.injEq] at hb
    rw [← hb.1, ← hb.2]
    show ((selfClosingCase st tag attr).2 = "" ∧ 2 ≤ (selfClosingCase st tag attr).1.newLines
        ∧ (selfClosingCase st tag attr).1.url = "")
      ∨ ∃ c, (selfClosingCase st tag attr).2.data.head? = some c ∧ c ≠ '\n'
    refine selfClosingCase_elim (fun r => (r.2 = "" ∧ 2 ≤ r.1.newLines ∧ r.1.url = "")
      ∨ ∃ c, r.2.data.head? = some c ∧ c ≠ '\n') st tag attr ?_ ?_ ?_ ?_ ?_
    · intro _; rw [if_neg hlt]; exact Or.inl ⟨rfl, hn, hu⟩
    · intro _; right; simp only [if_neg hlt]; exact ⟨'-', by decide, by decide⟩
    · intro hc; rw [hc] at ht; exact absurd (by decide) ht
    · intro hc; rw [hc] at ht; exact absurd (by decide) ht
    · exact Or.inl ⟨rfl, hn, hu⟩

/-- From a state with the break counter at 2 or more and no URL pending, a
stream without counter-resetting tags is not written with a leading newline. -/
theorem loop_lead (ts : List Token) (hts : ∀ t ∈ ts, isResetTag t = false) :
    ∀ st : State, 2 ≤ st.newLines → st.url = "" →
      (loop st ts).1.data.head? ≠ some '\n' := by
  induction ts with
  | nil =>
    intro st _ _
    simp [loop]
  | cons t ts ih =>
    intro st hn hu
    cases hb : body st t with
    | next st1 w =>
      simp only [loop, hb, String.data_append]
      rcases body_lead st st1 t w (hts t (List.mem_cons_self _ _)) hb hn hu with
        ⟨hw, hn1, hu1⟩ | ⟨c, hc, hne⟩
      · subst hw
        have := ih (fun x hx => hts x (List.mem_cons_of_mem _ hx)) st1 hn1 hu1
        simpa using this
      · cases hd : w.data with
        | nil => rw [hd] at hc; simp at hc
        | cons a l =>
          rw [hd] at hc
          simp only [List.head?_cons, Option.some.injEq] at hc
          simp only [List.cons_append, List.head?_cons, ne_eq, Option.some.injEq]
          rw [hc]
          exact hne
    | done st1 => simp [loop, hb]
    | ret err => simp [loop, hb]

/-- A break-triggering tag other than a start tag of `h1`-`h6`, `pre` or
`blockquote` raises the break counter by the number of newlines it writes, and
it writes nothing only when the counter is 2 or more or it is an end tag of
`div`, `tr`, `p` or `br`. -/
theorem body_break_counted (st : State) (t : Token) (ht : isBreakTag t = true)
    (hh : isHeadingStart t = false) :
    ∃ st1 w, body st t = .next st1 w ∧
      ((w = "" ∧ st1.newLines = st.newLines ∧ (isNoopEnd t = true ∨ ¬ st.newLines < 2)) ∨
       (st.newLines < 2 ∧ w = "\n" ∧ st1.newLines = st.newLines + 1) ∨
       (st.newLines < 2 ∧ w = "\n\n" ∧ st1.newLines = st.newLines + 2)) := by
  cases t with
  | Error err => simp [isBreakTag] at ht
  | Invalid n => simp [isBreakTag] at ht
  | Text raw => simp [isBreakTag] at ht
  | SelfClosingTag tag attr => simp [isBreakTag] at ht
  | Comment => simp [isBreakTag] at ht
  | Doctype => simp [isBreakTag] at ht
  | StartTag tag attr =>
    refine ⟨_, _, rfl, ?_⟩
    simp only [isHeadingStart, decide_eq_false_iff_not] at hh
    simp only [isBreakTag, breakNames, decide_eq_true_eq, List.mem_cons, List.mem_singleton,
      List.not_mem_nil, or_false] at ht
    by_cases hlt : st.newLines < 2
    · rcases ht with h | h | h | h | h | h | h | h | h | h | h | h | h | h | h <;> subst h <;>
        first
        | exact absurd (by decide) hh
        | simp [startCase, skipTags, hlt]
    · rcases ht with h | h | h | h | h | h | h | h | h | h | h | h | h | h | h <;> subst h <;>
        first
        | exact absurd (by decide) hh
        | simp [startCase, skipTags, hlt]
  | EndTag tag =>
    refine ⟨_, _, rfl, ?_⟩
    simp only [isBreakTag, breakNames, decide_eq_true_eq, List.mem_cons, List.mem_singleton,
      List.not_mem_nil, or_false] at ht
    by_cases hlt : st.newLines < 2
    · rcases ht with h | h | h | h | h | h | h | h | h | h | h | h | h | h | h <;> subst h <;>
        simp [endCase, skipTags, hlt, isNoopEnd]
    · rcases ht with h | h | h | h | h | h | h | h | h | h | h | h | h | h | h <;> subst h <;>
        simp [endCase, skipTags, hlt, isNoopEnd]

/-- A run of break-triggering tags whose first tag with a case of its own is
not a start tag of `h1`-`h6`, `pre` or `blockquote` writes at most three
characters: once a tag has written, the counter is at least 1 and leaves room
for one more write. -/
theorem loop_break_first (ts : List Token) (hts : ∀ t ∈ ts, isBreakTag t = true)
    (hf : headingFirst ts = false) :
    ∀ st : State, 0 ≤ st.newLines → (loop st ts).1.length ≤ 3 := by
  induction ts with
  | nil =>
    intro st _
    simp [loop]
  | cons t ts ih =>
    intro st hst
    have hts1 : ∀ x ∈ ts, isBreakTag x = true := fun x hx => hts x (List.mem_cons_of_mem _ hx)
    have hh : isHeadingStart t = false := by
      by_cases hno : isNoopEnd t = true
      · cases t <;> first | rfl | simp [isNoopEnd] at hno
      · simpa [headingFirst, hno] using hf
    obtain ⟨st1, w, hb, hw⟩ := body_break_counted st t (hts t (List.mem_cons_self _ _)) hh
    have hst1 := body_newLines_nonneg st st1 t w hb hst
    have hrun := (loop_break_run ts hts1 st1 hst1).2
    simp only [loop, hb, String.length_append]
    have l0 : ("" : String).length = 0 := by decide
    have l1 : ("\n" : String).length = 1 := by decide
    have l2 : ("\n\n" : String).length = 2 := by decide
    rcases hw with ⟨hw1, hw2, hno | hge⟩ | ⟨hlt, hw1, hw2⟩ | ⟨hlt, hw1, hw2⟩
    · subst hw1
      have hf1 : headingFirst ts = false := by simpa [headingFirst, hno] using hf
      have := ih hts1 hf1 st1 hst1
      rw [l0]
      omega
    · subst hw1
      rw [l0]
      rw [hw2, if_neg hge] at hrun
      omega
    · subst hw1
      rw [l1]
      split_ifs at hrun <;> omega
    · subst hw1
      rw [l2]
      split_ifs at hrun <;> omega

/-- The first character of a string is the first character of what it is
extended to. -/
theorem head_append (a b : String) (c : Char) (h : a.data.head? = some c) :
    (a ++ b).data.head? = some c := by
  rw [String.data_append]
  cases hd : a.data with
  | nil => rw [hd] at h; simp at h
  | cons x l => rw [hd] at h; simpa using h

/-- The empty string does not begin with a newline. -/
theorem nil_lead : ("" : String).data.head? ≠ some '\n' := by
  decide

/-- What the `img` case writes does not begin with a newline unless the `alt`
text does. -/
theorem imgCase_lead (st : State) (attr : Attrs) (h : altLeadsNewline attr = false) :
    (imgCase st attr).2.data.head? ≠ some '\n' := by
  simp only [altLeadsNewline, decide_eq_false_iff_not] at h
  simp only [imgCase]
  by_cases c1 : (!attr.isEmpty) = true
  · rw [if_pos c1]
    by_cases c2 : (imgLoop "" "" attr).2 ≠ ""
    · rw [if_pos c2]
      by_cases c3 : st.newLines > 0
      · rw [if_pos c3, String.empty_append]
        cases hd : (imgLoop "" "" attr).2.data with
        | nil => exact absurd (String.ext hd) c2
        | cons x l =>
          rw [head_append _ _ x (by rw [hd]; rfl)]
          intro hx
          rw [hd] at h
          exact h hx
      · rw [if_neg c3, String.append_assoc, head_append " " _ ' ' rfl]
        decide
    · rw [if_neg c2]
      exact nil_lead
  · rw [if_neg c1]
    exact nil_lead

/-- What the text branch writes never begins with a newline. -/
theorem textCase_lead (st : State) (raw : String) :
    (textCase st raw).2.data.head? ≠ some '\n' := by
  unfold textCase
  by_cases c1 : (!st.ignore && !st.reallyIgnore) = true
  · simp only [if_pos c1, apply_ite Prod.snd]
    by_cases c2 : TrimSpace raw ≠ "" ∧ st.newLines = 0
    · simp only [if_pos c2, String.append_assoc]
      split_ifs <;> (rw [head_append " " _ ' ' rfl]; decide)
    · simp only [if_neg c2, String.empty_append]
      by_cases c3 : TrimSpace raw ≠ ""
      · obtain ⟨c, hc, hne⟩ := TrimSpace_head raw c3
        split_ifs
        · rw [head_append _ _ c hc]
          intro hx
          exact hne (Option.some.inj hx)
        · rw [hc]
          intro hx
          exact hne (Option.some.inj hx)
      · have he : TrimSpace raw = "" := not_not.mp c3
        rw [he]
        split_ifs
        · rw [String.empty_append,
            head_append _ _ ' ' (head_append " (" st.url ' ' rfl)]
          decide
        · exact nil_lead
  · rw [if_neg c1]
    exact nil_lead

/-- A token that is not a break writer never writes a newline first,
whatever the state. -/
theorem body_noBreak (st st1 : State) (t : Token) (w : String) (ht : isBreaker t = false)
    (hb : body st t = .next st1 w) : w.data.head? ≠ some '\n' := by
  cases t with
  | Error err =>
    simp only [body] at hb
    split at hb <;> cases hb
  | Invalid n => simp [body] at hb
  | Comment =>
    simp only [body, Outcome.next.injEq] at hb
    rw [← hb.2]
    exact nil_lead
  | Doctype =>
    simp only [body, Outcome.next.injEq] at hb
    rw [← hb.2]
    exact nil_lead
  | Text raw =>
    simp only [body, Outcome.next.injEq] at hb
    rw [← hb.2]
    exact textCase_lead st raw
  | StartTag tag attr =>
    simp only [isBreaker, Bool.or_eq_false_iff, decide_eq_false_iff_not,
      Bool.and_eq_false_imp, decide_eq_true_eq] at ht
    simp only [body, Outcome.next.injEq] at hb
    rw [← hb.2]
    refine startCase_elim (fun r => r.2.data.head? ≠ some '\n') st tag attr
      ?_ ?_ ?_ ?_ ?_ ?_ ?_ ?_ ?_ ?_
    · intro _; exact nil_lead
    · intro _; exact nil_lead
    · intro hc
      exact absurd ((by decide : ∀ x ∈ ["div", "ul", "tr", "ol", "p", "br", "table"],
        x ∈ ["div", "ul", "tr", "ol", "p", "br", "table", "h1", "h2", "h3", "h4", "h5",
          "h6", "pre", "blockquote", "li", "hr"]) tag hc) ht.1
    · intro hc
      exact absurd ((by decide : ∀ x ∈ ["h1", "h2", "h3", "h4", "h5", "h6", "pre",
        "blockquote"],
        x ∈ ["div", "ul", "tr", "ol", "p", "br", "table", "h1", "h2", "h3", "h4", "h5",
          "h6", "pre", "blockquote", "li", "hr"]) tag hc) ht.1
    · intro hc; have h1 := ht.1; rw [hc] at h1; exact absurd (by decide) h1
    · intro hc; have h1 := ht.1; rw [hc] at h1; exact absurd (by decide) h1
    · intro _; exact nil_lead
    · intro _; exact nil_lead
    · intro hc; exact imgCase_lead st attr (ht.2 hc)
    · exact nil_lead
  | EndTag tag =>
    simp only [isBreaker, decide_eq_false_iff_not] at ht
    simp only [body, Outcome.next.injEq] at hb
    rw [← hb.2]
    refine endCase_elim (fun r => r.2.data.head? ≠ some '\n') st tag ?_ ?_ ?_ ?_ ?_
    · intro _; exact nil_lead
    · intro _; exact nil_lead
    · intro hc
      exact absurd ((by decide : ∀ x ∈ ["ul", "ol", "pre", "table", "blockquote", "h1", "h2",
        "h3", "h4", "h5", "h6"],
        x ∈ ["ul", "ol", "pre", "table", "blockquote", "h1", "h2", "h3", "h4", "h5", "h6",
          "hr"]) tag hc) ht
    · intro hc; rw [hc] at ht; exact absurd (by decide) ht
    · exact nil_lead
  | SelfClosingTag tag attr =>
    simp only [isBreaker, Bool.or_eq_false_iff, decide_eq_false_iff_not,
      Bool.and_eq_false_imp, decide_eq_true_eq] at ht
    simp only [body, Outcome.next.injEq] at hb
    rw [← hb.2]
    refine selfClosingCase_elim (fun r => r.2.data.head? ≠ some '\n') st tag attr
      ?_ ?_ ?_ ?_ ?_
    · intro hc
      exact absurd ((by decide : ∀ x ∈ ["div", "li", "br", "p"],
        x ∈ ["div", "li", "br", "p", "hr"]) tag hc) ht.1
    · intro hc; have h1 := ht.1; rw [hc] at h1; exact absurd (by decide) h1
    · intro _; exact nil_lead
    · intro hc; exact imgCase_lead st attr (ht.2 hc)
    · exact nil_lead

/-- A string that does not begin with a newline, extended by one that does
not either, does not begin with a newline. -/
theorem lead_append (a b : String) (ha : a.data.head? ≠ some '\n')
    (hb : b.data.head? ≠ some '\n') : (a ++ b).data.head? ≠ some '\n' := by
  rw [String.data_append]
  cases hd : a.data with
  | nil => simpa using hb
  | cons x l => rw [hd] at ha; simpa using ha

/-- A stream without break writers is not written with a leading newline,
from any state. -/
theorem loop_noBreak (ts : List Token) (hts : ∀ t ∈ ts, isBreaker t = false) :
    ∀ st : State, (loop st ts).1.data.head? ≠ some '\n' := by
  induction ts with
  | nil => intro st; simp [loop]
  | cons t ts ih =>
    intro st
    cases hb : body st t with
    | next st1 w =>
      simp only [loop, hb]
      exact lead_append _ _ (body_noBreak st st1 t w (hts t (List.mem_cons_self _ _)) hb)
        (ih (fun x hx => hts x (List.mem_cons_of_mem _ hx)) st1)
    | done st1 => simp [loop, hb]
    | ret err => simp [loop, hb]

/-- From a state with the break counter at 2 or more and no URL pending, a
stream made of tokens that are not counter-resetting tags followed by tokens
that are not break writers is not written with a leading newline. -/
theorem loop_lead_two (p2 : List Token) (h2 : ∀ t ∈ p2, isBreaker t = false)
    (p1 : List Token) (h1 : ∀ t ∈ p1, isResetTag t = false) :
    ∀ st : State, 2 ≤ st.newLines → st.url = "" →
      (loop st (p1 ++ p2)).1.data.head? ≠ some '\n' := by
  induction p1 with
  | nil =>
    intro st _ _
    exact loop_noBreak p2 h2 st
  | cons t ts ih =>
    intro st hn hu
    cases hb : body st t with
    | next st1 w =>
      simp only [List.cons_append, loop, hb]
      rcases body_lead st st1 t w (h1 t (List.mem_cons_self _ _)) hb hn hu with
        ⟨hw, hn1, hu1⟩ | ⟨c, hc, hne⟩
      · subst hw
        have := ih (fun x hx => h1 x (List.mem_cons_of_mem _ hx)) st1 hn1 hu1
        simpa using this
      · have hh : (w ++ (loop st1 (ts ++ p2)).1).data.head? = some c := head_append _ _ c hc
        intro hx
        have hx1 : (w ++ (loop st1 (ts ++ p2)).1).data.head? = some '\n' := hx
        rw [hh] at hx1
        exact hne (Option.some.inj hx1)
    | done st1 => simp [loop, hb]
    | ret err => simp [loop, hb]

/-- What the loop writes for a stream starts with what it writes for any
leading part of it. -/
theorem loop_append_ext (a b : List Token) :
    ∀ st : State, ∃ x : String, (loop st (a ++ b)).1 = (loop st a).1 ++ x := by
  induction a with
  | nil =>
    intro st
    exact ⟨(loop st b).1, by simp [loop]⟩
  | cons t ts ih =>
    intro st
    cases hb : body st t with
    | next st1 w =>
      obtain ⟨x, hx⟩ := ih st1
      refine ⟨x, ?_⟩
      simp only [List.cons_append, loop, hb]
      show w ++ (loop st1 (ts ++ b)).1 = w ++ (loop st1 ts).1 ++ x
      rw [hx, String.append_assoc]
    | done st1 => exact ⟨"", by simp [loop, hb]⟩
    | ret err => exact ⟨"", by simp [loop, hb]⟩

/-! ## The claims -/

/-- C1 (plain-text identity): a stream that is the single text token `s` is
converted without error to `strings.TrimSpace s`, which is `s` minus leading
and trailing white space: nothing is prepended or appended. -/
theorem C1_plain_text_identity (s : String) :
    HtmlToText [.Text s] = (TrimSpace s, none) ∧
    HtmlToTextString [.Text s] = (TrimSpace s, none) ∧
    ∃ pre post : List Char, s.data = pre ++ (HtmlToText [.Text s]).1.data ++ post ∧
      (∀ c ∈ pre, isSpace c = true) ∧ (∀ c ∈ post, isSpace c = true) ∧
      (∀ c, (HtmlToText [.Text s]).1.data.head? = some c → isSpace c = false) ∧
      (∀ c, (HtmlToText [.Text s]).1.data.getLast? = some c → isSpace c = false) := by
  have h : HtmlToText [.Text s] = (TrimSpace s, none) := by
    simp [HtmlToText, loop, body, textCase, State.init]
  refine ⟨h, ?_, ?_⟩
  · simp [HtmlToTextString, h]
  · rw [h]
    exact TrimSpace_spec s

/-- C2, the claim as stated fails: after the text `a`, the break-triggering
tags `<div>` and `</ul>` write three consecutive newline characters, one for
`<div>` and two for `</ul>`, and so do `<div>` and `<h1>`. -/
theorem C2_counterexample :
    (HtmlToText [.Text "a", .StartTag "div" [], .EndTag "ul"]).1
      = (HtmlToText [.Text "a"]).1 ++ "\n\n\n" ∧
    (HtmlToText [.Text "a", .StartTag "div" [], .StartTag "h1" []]).1
      = (HtmlToText [.Text "a"]).1 ++ "\n\n\n" ∧
    ['\n', '\n', '\n'] <:+: ("\n\n\n" : String).data :=
  ⟨by decide, by decide, ⟨[], [], rfl⟩⟩

/-- C2 (break saturation, amended): whatever tokens came before, the output
written by a run of break-triggering tag tokens processed after a text token
consists of newline characters only, and unless the first tag of the run that
has a case of its own (any tag but an end tag of `div`, `tr`, `p`, `br`) is a
start tag of `h1`-`h6`, `pre` or `blockquote`, it is at most three characters
long, so it never contains more than three consecutive newlines. -/
theorem C2_break_saturation (pre : List Token) (s : String) (ts : List Token)
    (hts : ∀ t ∈ ts, isBreakTag t = true) :
    ∃ w : String,
      (HtmlToText (pre ++ .Text s :: ts)).1 = (HtmlToText (pre ++ [.Text s])).1 ++ w ∧
      (∀ c ∈ w.data, c = '\n') ∧
      (headingFirst ts = false → w.length ≤ 3) := by
  rw [HtmlToText_out, HtmlToText_out]
  refine loop_pre
    (fun x y => ∃ w : String, x = y ++ w ∧ (∀ c ∈ w.data, c = '\n') ∧
      (headingFirst ts = false → w.length ≤ 3))
    (fun x => ⟨"", by simp, by simp, fun _ => by simp⟩) ?_ (.Text s :: ts) [.Text s] ?_ pre
    State.init (by decide)
  · rintro w x y ⟨v, hv, h1, h2⟩
    exact ⟨v, by rw [hv, String.append_assoc], h1, h2⟩
  · intro st hst
    obtain ⟨st1, w, hb⟩ := body_proper st (.Text s) rfl
    have hst1 := body_newLines_nonneg st st1 _ w hb hst
    have hrun := loop_break_run ts hts st1 hst1
    refine ⟨(loop st1 ts).1, ?_, hrun.1, ?_⟩
    · simp [loop, hb]
    · intro hf
      exact loop_break_first ts hts hf st1 hst1

/-- C2 at `a<div></p><h1></ul>`: the run writes three newlines, the bound. -/
theorem C2_break_saturation_witness :
    ∃ w : String,
      (HtmlToText ([] ++ .Text "a" ::
          [.StartTag "div" [], .EndTag "p", .StartTag "h1" [], .EndTag "ul"])).1
        = (HtmlToText ([] ++ [.Text "a"])).1 ++ w ∧
      (∀ c ∈ w.data, c = '\n') ∧ w.length ≤ 3 :=
  (C2_break_saturation [] "a"
    [.StartTag "div" [], .EndTag "p", .StartTag "h1" [], .EndTag "ul"] (by decide)).elim
    fun w h => ⟨w, h.1, h.2.1, h.2.2 (by decide)⟩

/-- C3, the claim as stated fails: on `Hello <a href="http://x">world</a>!` the
converter does not write `Hello world (http://x)!`. -/
theorem C3_counterexample :
    (HtmlToText [.Text "Hello ", .StartTag "a" [("href", "http://x")], .Text "world",
      .EndTag "a", .Text "!"]).1 ≠ "Hello world (http://x)!" := by
  decide

/-- C3 (link flush, amended): text, an anchor with a non-empty href, a
non-blank anchor text, the anchor end tag and a non-blank following text are
written as the text before, a space, the anchor text, the URL annotation, then
a separating space and the following text. -/
theorem C3_link_flush (a b c : String) (attr : Attrs)
    (hb : TrimSpace b ≠ "") (hc : TrimSpace c ≠ "") (hu : hrefLoop "" attr ≠ "") :
    HtmlToText [.Text a, .StartTag "a" attr, .Text b, .EndTag "a", .Text c]
      = (TrimSpace a ++ (" " ++ TrimSpace b ++ (" (" ++ hrefLoop "" attr ++ ")"))
          ++ (" " ++ TrimSpace c), none) := by
  cases attr with
  | nil => exact absurd rfl hu
  | cons x xs =>
    simp [HtmlToText, loop, body, textCase, startCase, endCase, aCase, skipTags, State.init]
    simp [hb, hc, hu, String.append_assoc]

/-- C3 at the input of the claim: `Hello <a href="http://x">world</a>!` gives
`Hello world (http://x) !`. -/
theorem C3_link_flush_witness :
    HtmlToText [.Text "Hello ", .StartTag "a" [("href", "http://x")], .Text "world",
      .EndTag "a", .Text "!"] = ("Hello world (http://x) !", none) :=
  (C3_link_flush "Hello " "world" "!" [("href", "http://x")]
    (by decide) (by decide) (by decide)).trans (by decide)

/-- C4, the claim as stated fails: on `click <a href="http://x">` the converter
does not write `click  (http://x)`. -/
theorem C4_counterexample :
    (HtmlToText [.Text "click ", .StartTag "a" [("href", "http://x")]]).1
      ≠ "click  (http://x)" := by
  decide

/-- C4 (anchor followed by no text token, amended): a text token followed by
an anchor start tag and the end of the stream is written as the trimmed text
alone; the captured href is not written.  On `click <a href="http://x">` the
output is `click`. -/
theorem C4_anchor_at_end (s : String) (attr : Attrs) :
    HtmlToText [.Text s, .StartTag "a" attr] = (TrimSpace s, none) ∧
    HtmlToText [.Text "click ", .StartTag "a" [("href", "http://x")]] = ("click", none) := by
  constructor
  · simp [HtmlToText, loop, body, textCase, startCase, aCase, skipTags, State.init]
  · decide

/-- C5 (suppressed content elision): for every suppressed tag name `n`, every
attribute list and every text `s`, the stream start tag `n`, text `s`, end tag
`n`, text `visible` is written as exactly `visible`. -/
theorem C5_suppressed_elision (n s : String) (attr : Attrs) (hn : n ∈ skipTags) :
    HtmlToText [.StartTag n attr, .Text s, .EndTag n, .Text "visible"] = ("visible", none) := by
  have hhead : n ≠ "head" := by
    intro h
    rw [h] at hn
    revert hn
    decide
  have hv : TrimSpace "visible" = "visible" := by decide
  simp [HtmlToText, loop, body, textCase, startCase, endCase, State.init, hn, hhead, hv]

/-- C5 at the input of the specification, `<script>var x=1;</script>visible`. -/
theorem C5_suppressed_elision_witness :
    HtmlToText [.StartTag "script" [], .Text "var x=1;", .EndTag "script", .Text "visible"]
      = ("visible", none) :=
  C5_suppressed_elision "script" "var x=1;" [] (by decide)

/-- C6 (list rendering): for a non-empty list of item texts, each with a
non-empty trimmed form, the stream `<ul>`, `<li>t</li>` for every item, `</ul>`
is written as the lines `* t` (trimmed), one newline between consecutive items,
followed only by the blank line that closes the list. -/
theorem C6_list_rendering (items : List String) (hne : items ≠ [])
    (htrim : ∀ x ∈ items, TrimSpace x ≠ "") :
    HtmlToText (.StartTag "ul" [] :: (listItems items ++ [.EndTag "ul"]))
      = (String.intercalate "\n" (items.map (fun x => "* " ++ TrimSpace x)) ++ "\n\n",
         none) := by
  cases items with
  | nil => exact absurd rfl hne
  | cons t rest =>
    obtain ⟨h1, st1, h2⟩ := loop_listItems rest t
      { State.init with lastTT := .StartTagToken } htrim rfl rfl rfl
    apply HtmlToText_of_finished _ _ st1
    have hstep : loop State.init (.StartTag "ul" [] :: (listItems (t :: rest) ++ [.EndTag "ul"]))
        = loop { State.init with lastTT := .StartTagToken }
            (listItems (t :: rest) ++ [.EndTag "ul"]) := by
      simp [loop, body, startCase, skipTags, State.init]
    rw [hstep]
    refine Prod.ext ?_ h2
    rw [h1]
    simp [State.init]

/-- C6 at `<ul><li>one</li><li>two</li></ul>`: two lines `* one` and `* two`
with no blank line between them. -/
theorem C6_list_rendering_witness :
    HtmlToText [.StartTag "ul" [], .StartTag "li" [], .Text "one", .EndTag "li",
      .StartTag "li" [], .Text "two", .EndTag "li", .EndTag "ul"]
      = ("* one\n* two\n\n", none) :=
  (C6_list_rendering ["one", "two"] (by decide) (by decide)).trans (by decide)

/-- C7 (image rendering): a stream that is a single `img` tag, start or
self-closing, with attributes `src` and `alt` (in either order) is written as
`alt (src)` when both are non-empty, as `alt` when only `src` is empty and as
nothing when `alt` is empty; with no `alt` attribute nothing is written. -/
theorem C7_image_rendering (src alt : String) :
    HtmlToText [.StartTag "img" [("src", src), ("alt", alt)]] = (imgText src alt, none) ∧
    HtmlToText [.StartTag "img" [("alt", alt), ("src", src)]] = (imgText src alt, none) ∧
    HtmlToText [.SelfClosingTag "img" [("src", src), ("alt", alt)]] = (imgText src alt, none) ∧
    HtmlToText [.SelfClosingTag "img" [("alt", alt), ("src", src)]] = (imgText src alt, none) ∧
    HtmlToText [.StartTag "img" [("src", src)]] = ("", none) ∧
    HtmlToText [.SelfClosingTag "img" [("src", src)]] = ("", none) ∧
    HtmlToText [.StartTag "img" [("src", "http://i"), ("alt", "pic")]]
      = ("pic (http://i)", none) ∧
    HtmlToText [.StartTag "img" [("src", "http://i")]] = ("", none) := by
  refine ⟨?_, ?_, ?_, ?_, ?_, ?_, by decide, by decide⟩
  · by_cases ha : alt = "" <;> by_cases hs : src = "" <;>
      simp [HtmlToText, loop, body, startCase, imgCase, imgLoop, skipTags, State.init, imgText,
        ha, hs, String.append_assoc]
  · by_cases ha : alt = "" <;> by_cases hs : src = "" <;>
      simp [HtmlToText, loop, body, startCase, imgCase, imgLoop, skipTags, State.init, imgText,
        ha, hs, String.append_assoc]
  · by_cases ha : alt = "" <;> by_cases hs : src = "" <;>
      simp [HtmlToText, loop, body, selfClosingCase, imgCase, imgLoop, State.init, imgText,
        ha, hs, String.append_assoc]
  · by_cases ha : alt = "" <;> by_cases hs : src = "" <;>
      simp [HtmlToText, loop, body, selfClosingCase, imgCase, imgLoop, State.init, imgText,
        ha, hs, String.append_assoc]
  · simp [HtmlToText, loop, body, startCase, imgCase, imgLoop, skipTags, State.init]
  · simp [HtmlToText, loop, body, selfClosingCase, imgCase, imgLoop, State.init]

/-- C8 (lexing fault): when proper tokens `ts` are followed by a fault `e`
other than end-of-stream, `HtmlToText` returns exactly `e`, and the output is
exactly what the loop wrote for `ts`, with nothing after it;
`HtmlToTextString` returns the same output and error. -/
theorem C8_lexing_fault (ts : List Token) (e : Error) (hts : ∀ t ∈ ts, t.proper = true)
    (he : e ≠ Error.EOF) :
    HtmlToText (ts ++ [.Error e]) = ((loop State.init ts).1, some e) ∧
    HtmlToTextString (ts ++ [.Error e]) = ((loop State.init ts).1, some e) := by
  have h : HtmlToText (ts ++ [.Error e]) = ((loop State.init ts).1, some e) := by
    simp [HtmlToText, loop_fault e he ts hts State.init]
  exact ⟨h, by simp [HtmlToTextString, h]⟩

/-- C8 at `click <a href="http://x">` followed by a read fault: the output is
`click`, the pending URL is not written, and the fault is returned. -/
theorem C8_lexing_fault_witness :
    HtmlToText ([.Text "click ", .StartTag "a" [("href", "http://x")]]
        ++ [.Error (.other "unexpected EOF")])
      = ("click", some (.other "unexpected EOF")) ∧
    HtmlToTextString ([.Text "click ", .StartTag "a" [("href", "http://x")]]
        ++ [.Error (.other "unexpected EOF")])
      = ("click", some (.other "unexpected EOF")) :=
  C8_lexing_fault [.Text "click ", .StartTag "a" [("href", "http://x")]]
    (.other "unexpected EOF") (by decide) (by decide)

/-- C9, the claim as stated fails: after the start tag `<meta charset="utf-8">`
the text `hello` is dropped, while alone it is written. -/
theorem C9_counterexample :
    HtmlToText [.StartTag "meta" [("charset", "utf-8")], .Text "hello"] = ("", none) ∧
    HtmlToText [.Text "hello"] = ("hello", none) := by
  decide

/-- C9 (link and meta, amended): a `link` or `meta` token that arrives as a
self-closing tag leaves the following text token as it is alone; one that
arrives as a start tag sets the suppression flag, so the following text token
is dropped, unless the matching end tag comes first, after which the text is
written as it is alone. -/
theorem C9_link_meta (n t : String) (attr : Attrs) (hn : n = "link" ∨ n = "meta") :
    HtmlToText [.SelfClosingTag n attr, .Text t] = HtmlToText [.Text t] ∧
    HtmlToText [.StartTag n attr, .EndTag n, .Text t] = HtmlToText [.Text t] ∧
    HtmlToText [.StartTag n attr, .Text t] = ("", none) := by
  rcases hn with h | h <;> subst h <;>
    simp [HtmlToText, loop, body, textCase, startCase, endCase, selfClosingCase, skipTags,
      State.init]

/-- C9 at `<meta charset="utf-8">` followed by the text `hello`. -/
theorem C9_link_meta_witness :
    HtmlToText [.SelfClosingTag "meta" [("charset", "utf-8")], .Text "hello"]
      = HtmlToText [.Text "hello"] ∧
    HtmlToText [.StartTag "meta" [("charset", "utf-8")], .EndTag "meta", .Text "hello"]
      = HtmlToText [.Text "hello"] ∧
    HtmlToText [.StartTag "meta" [("charset", "utf-8")], .Text "hello"] = ("", none) :=
  C9_link_meta "meta" "hello" [("charset", "utf-8")] (Or.inr rfl)

/-- C10, the claim as stated fails: inside `head` an `img` tag with a
non-empty `alt` is written. -/
theorem C10_counterexample :
    HtmlToText [.StartTag "head" [], .StartTag "img" [("src", "http://i"), ("alt", "pic")]]
      = ("pic (http://i)", none) := by
  decide

/-- C10 (inside head, amended): after a `head` start tag and before a `head`
end tag a text token writes nothing, so no ` (url)` annotation is written
there; an `img` tag is not blocked: directly after the `head` start tag it
writes what it writes without it. -/
theorem C10_head_suppression (pre mid : List Token) (a attr : Attrs) (s : String)
    (hmid : ∀ t ∈ mid, t ≠ .EndTag "head") :
    (HtmlToText (pre ++ .StartTag "head" a :: (mid ++ [.Text s]))).1
      = (HtmlToText (pre ++ .StartTag "head" a :: mid)).1 ∧
    (HtmlToText (pre ++ [.StartTag "head" a, .StartTag "img" attr])).1
      = (HtmlToText (pre ++ [.StartTag "img" attr])).1 ∧
    (HtmlToText (pre ++ [.StartTag "head" a, .SelfClosingTag "img" attr])).1
      = (HtmlToText (pre ++ [.SelfClosingTag "img" attr])).1 := by
  simp only [HtmlToText_out]
  refine ⟨?_, ?_, ?_⟩
  · refine loop_pre (fun x y => x = y) (fun _ => rfl) (fun w x y h => by rw [h]) _ _ ?_ pre
      State.init (by decide)
    intro st _
    have hb : body st (.StartTag "head" a)
        = .next { st with reallyIgnore := true, lastTT := .StartTagToken } "" := by
      simp [body, startCase]
    simp only [loop, hb]
    exact congrArg (fun x => "" ++ x) (loop_head_text s mid hmid _ rfl)
  · refine loop_pre (fun x y => x = y) (fun _ => rfl) (fun w x y h => by rw [h]) _ _ ?_ pre
      State.init (by decide)
    intro st _
    simp [loop, body, startCase, imgCase, skipTags]
  · refine loop_pre (fun x y => x = y) (fun _ => rfl) (fun w x y h => by rw [h]) _ _ ?_ pre
      State.init (by decide)
    intro st _
    simp [loop, body, startCase, selfClosingCase, imgCase, skipTags]

/-- C10 at `<head><a href="http://x">text` and `<head><img ...>`. -/
theorem C10_head_suppression_witness :
    (HtmlToText ([] ++ .StartTag "head" [] ::
        ([.StartTag "a" [("href", "http://x")]] ++ [.Text "text"]))).1
      = (HtmlToText ([] ++ .StartTag "head" [] :: [.StartTag "a" [("href", "http://x")]])).1 ∧
    (HtmlToText ([] ++ [.StartTag "head" [],
        .StartTag "img" [("src", "http://i"), ("alt", "pic")]])).1
      = (HtmlToText ([] ++ [.StartTag "img" [("src", "http://i"), ("alt", "pic")]])).1 ∧
    (HtmlToText ([] ++ [.StartTag "head" [],
        .SelfClosingTag "img" [("src", "http://i"), ("alt", "pic")]])).1
      = (HtmlToText ([] ++ [.SelfClosingTag "img" [("src", "http://i"), ("alt", "pic")]])).1 :=
  C10_head_suppression [] [.StartTag "a" [("href", "http://x")]] []
    [("src", "http://i"), ("alt", "pic")] "text" (by decide)

/-- C11, the claim as stated fails: after `<object>` the end tag `</embed>`, of
a different suppressed tag, re-enables text output. -/
theorem C11_counterexample :
    HtmlToText [.StartTag "object" [], .Text "hidden", .EndTag "embed", .Text "visible"]
      = ("visible", none) ∧
    HtmlToText [.StartTag "object" [], .Text "hidden", .Text "visible"] = ("", none) := by
  decide

/-- C11 (suppression window, amended): once a suppressed tag has been opened,
a text token is dropped as long as no end tag with a suppressed name has been
processed; end tags with other names do not re-enable text output, but the end
tag of any suppressed tag, matching or not, does. -/
theorem C11_suppression_window (pre mid : List Token) (n m s : String) (a : Attrs)
    (hn : n ∈ skipTags) (hm : m ∈ skipTags)
    (hmid : ∀ t ∈ mid, isSkipEnd t = false) :
    (HtmlToText (pre ++ .StartTag n a :: (mid ++ [.Text s]))).1
      = (HtmlToText (pre ++ .StartTag n a :: mid)).1 ∧
    HtmlToText [.StartTag n a, .EndTag m, .Text s] = HtmlToText [.Text s] := by
  have hnh := skipTags_ne_head n hn
  have hmh := skipTags_ne_head m hm
  constructor
  · simp only [HtmlToText_out]
    refine loop_pre (fun x y => x = y) (fun _ => rfl) (fun w x y h => by rw [h]) _ _ ?_ pre
      State.init (by decide)
    intro st _
    have hb : body st (.StartTag n a)
        = .next { st with ignore := true, lastTT := .StartTagToken } "" := by
      simp [body, startCase, hn, hnh]
    simp only [loop, hb]
    have hmid1 : ∀ t ∈ mid, ∀ k, t = .EndTag k → k ∉ skipTags := by
      intro t ht k hk
      have h := hmid t ht
      rw [hk] at h
      simpa [isSkipEnd] using h
    exact congrArg (fun x => "" ++ x) (loop_skip_text s mid hmid1 _ rfl)
  · simp [HtmlToText, loop, body, textCase, startCase, endCase, State.init, hn, hm, hnh, hmh]

/-- C11 at `<object>`, `</b>`, text and at `<object></embed>` followed by text. -/
theorem C11_suppression_window_witness :
    (HtmlToText ([] ++ .StartTag "object" [] :: ([.EndTag "b"] ++ [.Text "hidden"]))).1
      = (HtmlToText ([] ++ .StartTag "object" [] :: [.EndTag "b"])).1 ∧
    HtmlToText [.StartTag "object" [], .EndTag "embed", .Text "hidden"]
      = HtmlToText [.Text "hidden"] :=
  C11_suppression_window [] [.EndTag "b"] "object" "embed" "hidden" [] (by decide) (by decide)
    (by decide)

/-- C12 (boolean suppression): for every `k`, `k` consecutive start tags of a
suppressed name, one end tag of that name and the text token `t` give the
output and error of the text token `t` alone; a start tag of a suppressed name
in a state in which the flag is set by a start tag leaves the state unchanged
and writes nothing. -/
theorem C12_boolean_suppression (k : Nat) (n t : String) (a : Attrs) (hn : n ∈ skipTags) :
    HtmlToText (List.replicate k (.StartTag n a) ++ [.EndTag n, .Text t])
      = HtmlToText [.Text t] ∧
    ∀ st : State, st.ignore = true → st.lastTT = .StartTagToken →
      body st (.StartTag n a) = .next st "" := by
  have hhead := skipTags_ne_head n hn
  constructor
  · unfold HtmlToText
    rw [loop_replicate_open n t a hn k State.init]
    simp [loop, body, endCase, textCase, State.init, hn, hhead]
  · intro st hi hl
    cases st with
    | mk lt nl u ig ri =>
      simp only at hi hl
      subst hi hl
      simp [body, startCase, hn, hhead]

/-- C12 at `<script><script></script>` followed by text. -/
theorem C12_boolean_suppression_witness :
    HtmlToText (List.replicate 2 (.StartTag "script" []) ++ [.EndTag "script", .Text "text"])
      = HtmlToText [.Text "text"] ∧
    ∀ st : State, st.ignore = true → st.lastTT = .StartTagToken →
      body st (.StartTag "script" []) = .next st "" :=
  C12_boolean_suppression 2 "script" "text" [] (by decide)

/-- C13 (inert tags): for a tag name outside the handled and suppressed
vocabularies, in every state, a start, end or self-closing token with that
name writes nothing and changes only `lastTT`: the break counter, the pending
URL and both suppression flags are unchanged. -/
theorem C13_inert_tags (st : State) (tag : String) (attr : Attrs)
    (h1 : tag ∉ handledTags) (h2 : tag ∉ skipTags) (h3 : tag ≠ "head") :
    body st (.StartTag tag attr) = .next { st with lastTT := .StartTagToken } "" ∧
    body st (.EndTag tag) = .next { st with lastTT := .EndTagToken } "" ∧
    body st (.SelfClosingTag tag attr) = .next { st with lastTT := .SelfClosingTagToken } "" := by
  refine ⟨?_, ?_, ?_⟩
  · simp only [body, startCase_other st tag attr h1 h2 h3]
  · simp only [body, endCase_other st tag h1 h2 h3]
  · simp only [body, selfClosingCase_other st tag attr h1]

/-- C13 at the tag name `span`. -/
theorem C13_inert_tags_witness :
    body State.init (.StartTag "span" [("class", "x")])
      = .next { State.init with lastTT := .StartTagToken } "" ∧
    body State.init (.EndTag "span") = .next { State.init with lastTT := .EndTagToken } "" ∧
    body State.init (.SelfClosingTag "span" [("class", "x")])
      = .next { State.init with lastTT := .SelfClosingTagToken } "" :=
  C13_inert_tags State.init "span" [("class", "x")] (by decide) (by decide) (by decide)

/-- C14, the code at the failing input: on `<a href="http://x"><script>s` the
last token before the end of the stream is a text token and the URL is still
pending (fourth state), yet nothing is written: the end-of-stream iteration
sets `lastTT` to `ErrorToken` (fifth state) before the flush tests it. -/
theorem C14_end_of_stream_flush :
    HtmlToText [.StartTag "a" [("href", "http://x")], .StartTag "script" [], .Text "s"]
      = ("", none) ∧
    (states State.init [.StartTag "a" [("href", "http://x")], .StartTag "script" [],
        .Text "s"]).map (fun st => (st.lastTT, st.url))
      = [(.CommentToken, ""), (.StartTagToken, "http://x"), (.StartTagToken, "http://x"),
         (.TextToken, "http://x"), (.ErrorToken, "http://x")] := by
  decide

/-- C15, the claim as stated fails in its last clause: a whitespace-only text
token with no pending URL changes the state, it sets `lastTT`. -/
theorem C15_counterexample :
    body State.init (.Text " ") = .next { State.init with lastTT := .TextToken } "" ∧
    ({ State.init with lastTT := .TextToken } : State) ≠ State.init := by
  decide

/-- C15 (text-token transition, amended): with neither suppression flag set, a
text token writes a space if the trimmed text is non-empty and the break
counter is 0, then the trimmed text, then the URL annotation if a URL is
pending; afterwards no URL is pending, the counter is 0 if the trimmed text is
non-empty or a URL was pending and unchanged otherwise, and `lastTT` is
`TextToken`.  A whitespace-only token with a pending URL writes exactly the
annotation; with no pending URL it writes nothing and changes only `lastTT`. -/
theorem C15_text_transition (st : State) (s : String) (hi : st.ignore = false)
    (hr : st.reallyIgnore = false) :
    body st (.Text s)
      = .next { lastTT := .TextToken,
                newLines := if TrimSpace s ≠ "" ∨ st.url ≠ "" then 0 else st.newLines,
                url := "", ignore := false, reallyIgnore := false }
          ((if TrimSpace s ≠ "" ∧ st.newLines = 0 then " " else "")
            ++ (TrimSpace s ++ (if st.url ≠ "" then " (" ++ st.url ++ ")" else ""))) ∧
    (TrimSpace s = "" → st.url ≠ "" →
      body st (.Text s)
        = .next { st with lastTT := .TextToken, newLines := 0, url := "" }
            (" (" ++ st.url ++ ")")) ∧
    (TrimSpace s = "" → st.url = "" →
      body st (.Text s) = .next { st with lastTT := .TextToken } "") := by
  cases st with
  | mk lt nl u ig ri =>
    simp only at hi hr
    subst hi hr
    refine ⟨?_, ?_, ?_⟩
    · by_cases hu : u = "" <;> simp [body, textCase, hu, String.append_assoc]
    · intro ht hu
      simp only at hu
      simp [body, textCase, hu, ht]
    · intro ht hu
      simp only at hu
      simp [body, textCase, hu, ht]

/-- C15 at the text ` world ` with the break counter at 0 and the URL
`http://x` pending. -/
theorem C15_text_transition_witness :
    body ⟨.StartTagToken, 0, "http://x", false, false⟩ (.Text " world ")
      = .next ⟨.TextToken, 0, "", false, false⟩ " world (http://x)" :=
  ((C15_text_transition ⟨.StartTagToken, 0, "http://x", false, false⟩ " world " rfl rfl).1).trans
    (by decide)

/-- C16, the claim as stated fails: the break counter is 3 in the initial
state, and after `a<div></ul>` it is 3 again (0 after the text, 1 after
`<div>`, 3 after `</ul>`). -/
theorem C16_counterexample :
    State.init.newLines = 3 ∧
    (states State.init [.Text "a", .StartTag "div" [], .EndTag "ul"]).map
        (fun st => st.newLines) = [3, 0, 1, 3, 3] := by
  decide

/-- C16 (counter range, amended): the break counter is 3 in the initial state,
and in every state of the conversion of any token sequence its value is 0, 1,
2 or 3. -/
theorem C16_counter_range (ts : List Token) (st : State) (h : st ∈ states State.init ts) :
    State.init.newLines = 3 ∧
    (st.newLines = 0 ∨ st.newLines = 1 ∨ st.newLines = 2 ∨ st.newLines = 3) := by
  refine ⟨rfl, ?_⟩
  have hr := states_range ts State.init (by decide) (by decide) st h
  omega

/-- C16 at the state after `a<div></ul>`, in which the counter is 3. -/
theorem C16_counter_range_witness :
    State.init.newLines = 3 ∧
    ((⟨.EndTagToken, 3, "", false, false⟩ : State).newLines = 0 ∨
     (⟨.EndTagToken, 3, "", false, false⟩ : State).newLines = 1 ∨
     (⟨.EndTagToken, 3, "", false, false⟩ : State).newLines = 2 ∨
     (⟨.EndTagToken, 3, "", false, false⟩ : State).newLines = 3) :=
  C16_counter_range [.Text "a", .StartTag "div" [], .EndTag "ul"]
    ⟨.EndTagToken, 3, "", false, false⟩ (by decide)

/-- C17, the claim as stated fails: `<td>` and `<a href=...>` set the break
counter to 0 without writing, so the break tag after them writes a newline as
the first character of the output. -/
theorem C17_counterexample :
    HtmlToText [.StartTag "td" [], .StartTag "div" []] = ("\n", none) ∧
    HtmlToText [.StartTag "a" [("href", "http://x")], .StartTag "p" [], .Text "text"]
      = ("\ntext (http://x)", none) := by
  decide

/-- C17 (no leading line break, amended): a newline is the first character
of the output only if a `td`, `th`, `a` or `img` tag comes before anything is
written and a break-writing tag follows while still nothing is written.  For
every token sequence made of a part with no `td`, `th`, `a` or `img` tag, a
part with no break-writing tag, and any further tokens once these two parts
have written something, the output does not begin with a newline character. -/
theorem C17_no_leading_break (p1 p2 rest : List Token)
    (h1 : ∀ t ∈ p1, isResetTag t = false) (h2 : ∀ t ∈ p2, isBreaker t = false)
    (h : (HtmlToText (p1 ++ p2)).1 ≠ "" ∨ rest = []) :
    (HtmlToText (p1 ++ p2 ++ rest)).1.data.head? ≠ some '\n' := by
  rw [HtmlToText_out] at h ⊢
  have hlead := loop_lead_two p2 h2 p1 h1 State.init (by decide) rfl
  rcases h with h | h
  · obtain ⟨x, hx⟩ := loop_append_ext (p1 ++ p2) rest State.init
    rw [hx]
    cases hd : (loop State.init (p1 ++ p2)).1.data with
    | nil => exact absurd (String.ext hd) h
    | cons c l =>
      rw [head_append _ _ c (by rw [hd]; rfl)]
      rw [hd] at hlead
      exact hlead
  · rw [h, List.append_nil]
    exact hlead

/-- C17 at `<p>Hello<a href="http://x">link</a><td><div>`: the first two
tokens have written `Hello`, and the `td` and `div` tags after them do not put
a newline first. -/
theorem C17_no_leading_break_witness :
    (HtmlToText ([.StartTag "p" [], .Text "Hello"] ++ [] ++
      [.StartTag "a" [("href", "http://x")], .Text "link", .EndTag "a", .StartTag "td" [],
       .StartTag "div" []])).1.data.head? ≠ some '\n' :=
  C17_no_leading_break [.StartTag "p" [], .Text "Hello"] []
    [.StartTag "a" [("href", "http://x")], .Text "link", .EndTag "a", .StartTag "td" [],
     .StartTag "div" []] (by decide) (by decide) (Or.inl (by decide))

/-- C18 (anchor href capture): an `a` tag, start or self-closing, whose
attributes contain an `href` key sets the pending URL to the value of the last
`href` attribute, whatever was pending; with no `href` attribute the pending
URL is unchanged; in every case the break counter becomes 0 and nothing is
written. -/
theorem C18_anchor_href (st : State) (l1 l2 attr : Attrs) (v : String)
    (h2 : ∀ kv ∈ l2, kv.1 ≠ "href") (h : ∀ kv ∈ attr, kv.1 ≠ "href") :
    body st (.StartTag "a" (l1 ++ ("href", v) :: l2))
      = .next { st with url := v, newLines := 0, lastTT := .StartTagToken } "" ∧
    body st (.SelfClosingTag "a" (l1 ++ ("href", v) :: l2))
      = .next { st with url := v, newLines := 0, lastTT := .SelfClosingTagToken } "" ∧
    body st (.StartTag "a" attr)
      = .next { st with newLines := 0, lastTT := .StartTagToken } "" ∧
    body st (.SelfClosingTag "a" attr)
      = .next { st with newLines := 0, lastTT := .SelfClosingTagToken } "" := by
  have e1 : (aCase st (l1 ++ ("href", v) :: l2)) = ({ st with url := v, newLines := 0 }, "") := by
    simp [aCase, hrefLoop_last l1 l2 v h2]
  have e2 : aCase st attr = ({ st with newLines := 0 }, "") := by
    simp [aCase, hrefLoop_no_href attr h]
  refine ⟨?_, ?_, ?_, ?_⟩
  · simp [body, startCase, skipTags, e1]
  · simp [body, selfClosingCase, e1]
  · simp [body, startCase, skipTags, e2]
  · simp [body, selfClosingCase, e2]

/-- C18 at `<a href="http://a" class="c" href="http://b">` over a pending
URL, and at `<a name="top">`. -/
theorem C18_anchor_href_witness :
    body ⟨.TextToken, 2, "http://old", false, false⟩
        (.StartTag "a" ([("href", "http://a"), ("class", "c")] ++ ("href", "http://b") :: []))
      = .next { (⟨.TextToken, 2, "http://old", false, false⟩ : State) with
          url := "http://b", newLines := 0, lastTT := .StartTagToken } "" ∧
    body ⟨.TextToken, 2, "http://old", false, false⟩
        (.SelfClosingTag "a" ([("href", "http://a"), ("class", "c")] ++ ("href", "http://b") :: []))
      = .next { (⟨.TextToken, 2, "http://old", false, false⟩ : State) with
          url := "http://b", newLines := 0, lastTT := .SelfClosingTagToken } "" ∧
    body ⟨.TextToken, 2, "http://old", false, false⟩ (.StartTag "a" [("name", "top")])
      = .next { (⟨.TextToken, 2, "http://old", false, false⟩ : State) with
          newLines := 0, lastTT := .StartTagToken } "" ∧
    body ⟨.TextToken, 2, "http://old", false, false⟩ (.SelfClosingTag "a" [("name", "top")])
      = .next { (⟨.TextToken, 2, "http://old", false, false⟩ : State) with
          newLines := 0, lastTT := .SelfClosingTagToken } "" :=
  C18_anchor_href ⟨.TextToken, 2, "http://old", false, false⟩
    [("href", "http://a"), ("class", "c")] [] [("name", "top")] "http://b" (by decide) (by decide)

/-- C19 (saturating counter): for every token sequence, the machine whose
break counter starts at 2 and is clamped to at most 2 at every update produces
the same output and the same error result as the converter of the source,
whose counter starts at 3 and can reach 3. -/
theorem C19_saturating_refinement (ts : List Token) : satHtmlToText ts = HtmlToText ts := by
  have h := satLoop_sat ts State.init
  have hi : State.init.sat = State.satInit := by decide
  rw [hi] at h
  unfold satHtmlToText HtmlToText
  rw [h]
  cases loop State.init ts with
  | mk w e =>
    cases e with
    | failed err => rfl
    | finished st => rfl

end unhtml
